import Mathlib

/-!
Verification of the Task Persistence & Synchronization Engine of a
vault-based planning application (Rust/Tauri).  The relational store
(`src-tauri/src/repo/planning_repo.rs`), the orchestration layer
(`src-tauri/src/services/planning_service.rs`), the Markdown front-matter
store (`src-tauri/src/repo/planning_md_repo.rs`) and the slug generator
(`src-tauri/src/paths.rs`) are shallowly embedded as pure functions over an
explicit store state.  SQLite rows become list elements; `UPDATE ... WHERE`
becomes a map over the list; wall-clock timestamps and freshly generated
UUIDs are passed in as parameters; elapsed-seconds computation between two
RFC3339 timestamps is passed in as a function parameter (the source parses
both timestamps with chrono and subtracts).
-/

namespace Planning

/-- Task status enum from `domain/planning.rs` (`TaskStatus`). -/
inductive TaskStatus where
  | todo
  | doing
  | verify
  | done
deriving DecidableEq, Repr

/-- Task priority enum from `domain/planning.rs` (`TaskPriority`). -/
inductive TaskPriority where
  | urgent
  | high
  | medium
  | low
deriving DecidableEq, Repr

/-- `Display for TaskStatus`. -/
def statusToString : TaskStatus → String
  | .todo => "todo"
  | .doing => "doing"
  | .verify => "verify"
  | .done => "done"

/-- `From<&str> for TaskStatus`: legacy "backlog" maps to `todo`, unknown
strings default to `todo`. -/
def statusFromString (s : String) : TaskStatus :=
  if s = "backlog" then .todo
  else if s = "todo" then .todo
  else if s = "doing" then .doing
  else if s = "verify" then .verify
  else if s = "done" then .done
  else .todo

/-- `Display for TaskPriority`. -/
def priorityToString : TaskPriority → String
  | .urgent => "p0"
  | .high => "p1"
  | .medium => "p2"
  | .low => "p3"

/-- Subtask model from `domain/planning.rs`. -/
structure Subtask where
  id : String
  title : String
  completed : Bool
deriving DecidableEq, Repr

/-- Recurrence rule from `domain/planning.rs` (`TaskPeriodicity`). -/
structure TaskPeriodicity where
  strategy : String
  interval : Int
  start_date : String
  end_rule : String
  end_date : Option String
  end_count : Option Int
deriving DecidableEq, Repr

/-- Task row, mirroring the `Task` struct of `domain/planning.rs` (which is
also the shape produced by `task_from_row` for a row of the `tasks` table). -/
structure Task where
  id : String
  title : String
  description : Option String
  status : TaskStatus
  priority : Option TaskPriority
  tags : Option (List String)
  labels : Option (List String)
  subtasks : Option (List Subtask)
  periodicity : Option TaskPeriodicity
  order_index : Int
  estimate_min : Option Int
  scheduled_start : Option String
  scheduled_end : Option String
  due_date : Option String
  board_id : Option String
  note_path : Option String
  task_dir_slug : Option String
  md_rel_path : Option String
  created_at : String
  updated_at : String
  completed_at : Option String
  archived : Int
deriving DecidableEq, Repr

/-- Timer row of the `task_timer` table (`Timer` in `domain/planning.rs`). -/
structure Timer where
  id : String
  task_id : String
  start_at : String
  stop_at : Option String
  duration_sec : Int
  source : String
deriving DecidableEq, Repr

/-- The relational store: the `tasks` and `task_timer` tables, rows kept in
insertion order. -/
structure DBState where
  tasks : List Task
  timers : List Timer
deriving DecidableEq, Repr

/-- The empty store created by `PlanningRepo::init` (fresh `planning.db`). -/
def DBState.empty : DBState := { tasks := [], timers := [] }

/-- API error as in `ipc.rs` (`ApiError`); `details` is dropped. -/
structure ApiError where
  code : String
  message : String
deriving DecidableEq, Repr

/-- `SELECT * FROM tasks WHERE id = ?` (first matching row, `get_task`). -/
def getTask (st : DBState) (tid : String) : Option Task :=
  st.tasks.find? (fun t => t.id = tid)

/-- `SELECT COALESCE(MAX(order_index), -1) FROM tasks WHERE status = ?`. -/
def maxOrderIndex (tasks : List Task) (s : TaskStatus) : Int :=
  match tasks.filter (fun t => t.status = s) with
  | [] => -1
  | t :: ts => ts.foldl (fun acc u => max acc u.order_index) t.order_index

/-- Tags/subtasks columns store NULL when the provided vector is absent or
empty (`create_task`/`update_task` serialize only non-empty vectors), so the
row read back carries `none` in that case. -/
def normListOpt {α : Type} (o : Option (List α)) : Option (List α) :=
  match o with
  | some [] => none
  | some l => some l
  | none => none

/-- Row assembled by `PlanningRepo::create_task` before the `INSERT`:
`order_index` is max+1 for the status and `archived` is 0 (fresh `id` and
`now` are parameters standing for `Uuid::new_v4()` / `Utc::now()`). -/
def newTaskRow (st : DBState) (id now : String) (title : String)
    (description : Option String) (status : TaskStatus)
    (priority : Option TaskPriority) (due_date board_id : Option String)
    (estimate_min : Option Int) (tags : Option (List String))
    (subtasks : Option (List Subtask)) (periodicity : Option TaskPeriodicity)
    (scheduled_start scheduled_end note_path completed_at task_dir_slug
      md_rel_path : Option String) : Task :=
  { id := id
    title := title
    description := description
    status := status
    priority := priority
    tags := normListOpt tags
    labels := normListOpt tags
    subtasks := normListOpt subtasks
    periodicity := periodicity
    order_index := maxOrderIndex st.tasks status + 1
    estimate_min := estimate_min
    scheduled_start := scheduled_start
    scheduled_end := scheduled_end
    due_date := due_date
    board_id := board_id
    note_path := note_path
    task_dir_slug := task_dir_slug
    md_rel_path := md_rel_path
    created_at := now
    updated_at := now
    completed_at := completed_at
    archived := 0 }

/-- `PlanningRepo::create_task`: insert the assembled row, then return the
row read back via `get_task_by_id`.  Inserting a duplicate primary key fails
in SQLite, which we surface as a `DatabaseError`. -/
def repoCreateTask (st : DBState) (id now : String) (title : String)
    (description : Option String) (status : TaskStatus)
    (priority : Option TaskPriority) (due_date board_id : Option String)
    (estimate_min : Option Int) (tags : Option (List String))
    (subtasks : Option (List Subtask)) (periodicity : Option TaskPeriodicity)
    (scheduled_start scheduled_end note_path completed_at task_dir_slug
      md_rel_path : Option String) :
    DBState × Except ApiError Task :=
  if st.tasks.any (fun t => t.id = id) then
    (st, .error ⟨"DatabaseError", "UNIQUE constraint failed"⟩)
  else
    let row : Task := newTaskRow st id now title description status priority
      due_date board_id estimate_min tags subtasks periodicity scheduled_start
      scheduled_end note_path completed_at task_dir_slug md_rel_path
    let st' : DBState := { st with tasks := st.tasks ++ [row] }
    match getTask st' id with
    | some t => (st', .ok t)
    | none => (st', .error ⟨"DatabaseError", "no rows returned"⟩)

/-- Field patch accepted by `PlanningRepo::update_task` (its long optional
parameter list). -/
structure UpdateFields where
  title : Option String := none
  description : Option String := none
  status : Option TaskStatus := none
  priority : Option TaskPriority := none
  tags : Option (List String) := none
  subtasks : Option (List Subtask) := none
  periodicity : Option TaskPeriodicity := none
  order_index : Option Int := none
  estimate_min : Option Int := none
  scheduled_start : Option String := none
  scheduled_end : Option String := none
  due_date : Option (Option String) := none
  board_id : Option String := none
  note_path : Option String := none
  archived : Option Int := none
  completed_at : Option (Option String) := none
deriving Repr

/-- Merge step of `PlanningRepo::update_task`: each provided field replaces
the current row's value (the source's chain of `if let Some` assignments;
the fields are independent, so the chain is this record).  A provided
`status` recomputes `order_index` as max+1 of the destination column over
the pre-update table, and a provided `order_index` overrides that; a tags
patch also sets `labels`; `updated_at` becomes `now`. -/
def mergeTask (tasks : List Task) (cur : Task) (f : UpdateFields)
    (now : String) : Task :=
  { id := cur.id
    title := f.title.getD cur.title
    description := match f.description with
      | some v => some v
      | none => cur.description
    status := f.status.getD cur.status
    priority := match f.priority with
      | some v => some v
      | none => cur.priority
    tags := match f.tags with
      | some v => some v
      | none => cur.tags
    labels := match f.tags with
      | some v => some v
      | none => cur.labels
    subtasks := match f.subtasks with
      | some v => some v
      | none => cur.subtasks
    periodicity := match f.periodicity with
      | some v => some v
      | none => cur.periodicity
    order_index := match f.order_index with
      | some v => v
      | none => match f.status with
        | some s => maxOrderIndex tasks s + 1
        | none => cur.order_index
    estimate_min := match f.estimate_min with
      | some v => some v
      | none => cur.estimate_min
    scheduled_start := match f.scheduled_start with
      | some v => some v
      | none => cur.scheduled_start
    scheduled_end := match f.scheduled_end with
      | some v => some v
      | none => cur.scheduled_end
    due_date := f.due_date.getD cur.due_date
    board_id := match f.board_id with
      | some v => some v
      | none => cur.board_id
    note_path := match f.note_path with
      | some v => some v
      | none => cur.note_path
    task_dir_slug := cur.task_dir_slug
    md_rel_path := cur.md_rel_path
    created_at := cur.created_at
    updated_at := now
    completed_at := f.completed_at.getD cur.completed_at
    archived := f.archived.getD cur.archived }

/-- Columns written by the `UPDATE tasks SET ...` of `update_task` (it does
not write `created_at`, `task_dir_slug` or `md_rel_path`); the tags and
subtasks columns go through the empty-vector-to-NULL serialization. -/
def writeUpdatedColumns (row merged : Task) : Task :=
  { row with
    title := merged.title
    description := merged.description
    status := merged.status
    priority := merged.priority
    tags := normListOpt merged.tags
    labels := normListOpt merged.tags
    subtasks := normListOpt merged.subtasks
    periodicity := merged.periodicity
    due_date := merged.due_date
    board_id := merged.board_id
    order_index := merged.order_index
    estimate_min := merged.estimate_min
    scheduled_start := merged.scheduled_start
    scheduled_end := merged.scheduled_end
    note_path := merged.note_path
    updated_at := merged.updated_at
    archived := merged.archived
    completed_at := merged.completed_at }

/-- `PlanningRepo::update_task`: read the current row (`NotFound`-style
database error when absent), merge the patch, write the merged columns back
to every row with that id, and return the row read back. -/
def repoUpdateTask (st : DBState) (tid : String) (f : UpdateFields)
    (now : String) : DBState × Except ApiError Task :=
  match getTask st tid with
  | none => (st, .error ⟨"DatabaseError", "no rows returned"⟩)
  | some cur =>
    let merged := mergeTask st.tasks cur f now
    let st' : DBState :=
      { st with
        tasks := st.tasks.map (fun t =>
          if t.id = tid then writeUpdatedColumns t merged else t) }
    match getTask st' tid with
    | some t => (st', .ok t)
    | none => (st', .error ⟨"DatabaseError", "no rows returned"⟩)

/-- `PlanningRepo::mark_task_done`:
`UPDATE tasks SET status = 'done', completed_at = ?, updated_at = ? WHERE id = ?`
followed by a read-back. -/
def repoMarkTaskDone (st : DBState) (tid now : String) :
    DBState × Except ApiError Task :=
  let st' : DBState :=
    { st with
      tasks := st.tasks.map (fun t =>
        if t.id = tid then
          { t with status := .done, completed_at := some now, updated_at := now }
        else t) }
  match getTask st' tid with
  | some t => (st', .ok t)
  | none => (st', .error ⟨"DatabaseError", "no rows returned"⟩)

/-- `PlanningRepo::reopen_task`:
`UPDATE tasks SET status = 'todo', completed_at = NULL, updated_at = ? WHERE id = ?`
followed by a read-back. -/
def repoReopenTask (st : DBState) (tid now : String) :
    DBState × Except ApiError Task :=
  let st' : DBState :=
    { st with
      tasks := st.tasks.map (fun t =>
        if t.id = tid then
          { t with status := .todo, completed_at := none, updated_at := now }
        else t) }
  match getTask st' tid with
  | some t => (st', .ok t)
  | none => (st', .error ⟨"DatabaseError", "no rows returned"⟩)

/-- Error raised when chrono fails to parse a timer's `start_at`. -/
def errDateTime : ApiError := ⟨"DateTimeError", "Failed to parse start time"⟩

/-- Per-timer body of the `stop_all_active_timers` loop applied to the whole
table: every open row (`stop_at IS NULL`) has its `start_at` parsed (a parse
failure aborts the loop with `DateTimeError`, leaving that row and the rest
untouched — there is no transaction, so rows already processed stay closed)
and is then closed with `stop_at := now` and the computed elapsed seconds.
`parseElapsed start_at now` stands for chrono's RFC3339 parse plus the
`num_seconds` subtraction against the current wall clock; `none` models the
parse failure. -/
def closeAllOpenTimers (parseElapsed : String → String → Option Int)
    (now : String) : List Timer → List Timer × Except ApiError Unit
  | [] => ([], .ok ())
  | tm :: rest =>
    if tm.stop_at = none then
      match parseElapsed tm.start_at now with
      | none => (tm :: rest, .error errDateTime)
      | some dur =>
        let r := closeAllOpenTimers parseElapsed now rest
        ({ tm with stop_at := some now, duration_sec := dur } :: r.1, r.2)
    else
      let r := closeAllOpenTimers parseElapsed now rest
      (tm :: r.1, r.2)

/-- `PlanningRepo::stop_all_active_timers`: close every timer row with
`stop_at IS NULL`, then
`UPDATE tasks SET status = 'todo', updated_at = ? WHERE status = 'doing'`
(the task update is skipped when the loop aborted on a parse error, because
`?` returns early). -/
def stopAllActiveTimers (st : DBState) (now : String)
    (parseElapsed : String → String → Option Int) :
    DBState × Except ApiError Unit :=
  let r := closeAllOpenTimers parseElapsed now st.timers
  match r.2 with
  | .error e => ({ st with timers := r.1 }, .error e)
  | .ok _ =>
    ({ tasks := st.tasks.map (fun t =>
         if t.status = .doing then { t with status := .todo, updated_at := now }
         else t)
       timers := r.1 }, .ok ())

/-- `PlanningRepo::start_task`: stop all active timers first (propagating
their failure with `?`), insert the new timer row (open, `duration_sec = 0`,
`source = 'manual'`), then set the task's status to `doing`. -/
def repoStartTask (st : DBState) (tid timerId now : String)
    (parseElapsed : String → String → Option Int) :
    DBState × Except ApiError Unit :=
  let r := stopAllActiveTimers st now parseElapsed
  match r.2 with
  | .error e => (r.1, .error e)
  | .ok _ =>
    let st1 := r.1
    let newTimer : Timer :=
      { id := timerId, task_id := tid, start_at := now, stop_at := none
        duration_sec := 0, source := "manual" }
    ({ tasks := st1.tasks.map (fun t =>
         if t.id = tid then { t with status := .doing, updated_at := now }
         else t)
       timers := st1.timers ++ [newTimer] }, .ok ())

/-- `SELECT id, start_at FROM task_timer WHERE task_id = ? AND stop_at IS
NULL LIMIT 1`: the first open timer row of the task, in table order. -/
def findOpenTimer (timers : List Timer) (tid : String) : Option Timer :=
  timers.find? (fun tm => decide (tm.task_id = tid ∧ tm.stop_at = none))

/-- `PlanningRepo::stop_task`: look up the task's own active timer; when one
exists, parse its `start_at` (failure aborts with `DateTimeError` before any
row is written) and close it; with or without an open timer, finish by
setting the task's status back to `todo` — the absence of an open timer is
not an error. -/
def repoStopTask (st : DBState) (tid now : String)
    (parseElapsed : String → String → Option Int) :
    DBState × Except ApiError Unit :=
  let setTodo : List Task → List Task := fun ts => ts.map (fun t =>
    if t.id = tid then { t with status := .todo, updated_at := now } else t)
  match findOpenTimer st.timers tid with
  | none => ({ st with tasks := setTodo st.tasks }, .ok ())
  | some tm =>
    match parseElapsed tm.start_at now with
    | none => (st, .error errDateTime)
    | some dur =>
      ({ tasks := setTodo st.tasks
         timers := st.timers.map (fun u =>
           if u.id = tm.id then
             { u with stop_at := some now, duration_sec := dur }
           else u) }, .ok ())

/-- One entry of the batch reorder input (`ReorderTaskInput`). -/
structure ReorderTaskInput where
  id : String
  status : Option TaskStatus
  order_index : Int
deriving DecidableEq, Repr

/-- `PlanningRepo::reorder_tasks`: per entry, update `order_index` and
optionally `status`; nothing else (in particular not `completed_at`) is
touched. -/
def repoReorderTasks (st : DBState) (inputs : List ReorderTaskInput)
    (now : String) : DBState :=
  inputs.foldl (fun acc inp =>
    { acc with
      tasks := acc.tasks.map (fun t =>
        if t.id = inp.id then
          match inp.status with
          | some s =>
            { t with status := s, order_index := inp.order_index, updated_at := now }
          | none => { t with order_index := inp.order_index, updated_at := now }
        else t) }) st

/-- `PlanningRepo::delete_task`: `NotFound` when the id is unknown; otherwise
delete the task's timer rows and the task row in one transaction. -/
def repoDeleteTask (st : DBState) (tid : String) :
    DBState × Except ApiError Unit :=
  match getTask st tid with
  | none => (st, .error ⟨"NotFound", "Task with id " ++ tid ++ " not found"⟩)
  | some _ =>
    ({ tasks := st.tasks.filter (fun t => t.id ≠ tid)
       timers := st.timers.filter (fun tm => tm.task_id ≠ tid) }, .ok ())

/-- `PlanningRepo::update_task_note_path`. -/
def repoUpdateTaskNotePath (st : DBState) (tid path now : String) : DBState :=
  { st with
    tasks := st.tasks.map (fun t =>
      if t.id = tid then { t with note_path := some path, updated_at := now }
      else t) }

/-- `PlanningRepo::update_task_path_info`. -/
def repoUpdateTaskPathInfo (st : DBState) (tid slug rel now : String) :
    DBState :=
  { st with
    tasks := st.tasks.map (fun t =>
      if t.id = tid then
        { t with task_dir_slug := some slug, md_rel_path := some rel
                 updated_at := now }
      else t) }

/-- Number of open timer rows (`stop_at IS NULL`) in the store. -/
def openTimerCount (st : DBState) : Nat :=
  st.timers.countP (fun tm => tm.stop_at.isNone)

/-- Rust `char::is_whitespace` restricted to the ASCII range (the only
characters these files contain at trim positions). -/
def isRustWs (c : Char) : Bool :=
  c = ' ' || c = '\t' || c = '\n' || c = '\r' || c.val = 11 || c.val = 12

/-- Rust `str::trim_start`. -/
def trimStartL (l : List Char) : List Char := l.dropWhile isRustWs

/-- Rust `str::trim_end`. -/
def trimEndL (l : List Char) : List Char :=
  (l.reverse.dropWhile isRustWs).reverse

/-- Rust `str::trim`. -/
def trimL (l : List Char) : List Char := trimEndL (trimStartL l)

/-- Rust `str::trim` on `String`. -/
def rustTrim (s : String) : String := ⟨trimL s.data⟩

/-- Rust `str::find(pattern)`: index of the first occurrence of `pat` as a
contiguous subsequence (byte and character indices agree because every
pattern searched for here is ASCII). -/
def findSub : List Char → List Char → Option Nat
  | l, pat =>
    match l with
    | [] => if pat = [] then some 0 else none
    | _ :: rest =>
      if pat.isPrefixOf l then some 0
      else (findSub rest pat).map (· + 1)

/-- Split at every newline (the splitter underlying Rust `str::lines`);
`splitOnNl "a\nb" = [a, b]` and a trailing newline yields a trailing `[]`. -/
def splitOnNl : List Char → List (List Char)
  | [] => [[]]
  | c :: rest =>
    if c = '\n' then [] :: splitOnNl rest
    else
      match splitOnNl rest with
      | [] => [[c]]
      | p :: ps => (c :: p) :: ps

/-- Rust `str::lines`: split on newline terminators, no trailing empty line,
each line stripped of a trailing carriage return. -/
def splitLinesL (l : List Char) : List (List Char) :=
  if l = [] then []
  else
    let parts := splitOnNl l
    let parts := if l.getLast? = some '\n' then parts.dropLast else parts
    parts.map (fun p => if p.getLast? = some '\r' then p.dropLast else p)

/-- Rust `str::split_once(':')`. -/
def splitOnceColon (l : List Char) : Option (List Char × List Char) :=
  match l.findIdx? (· = ':') with
  | some i => some (l.take i, l.drop (i + 1))
  | none => none

/-- Front-matter map; models `HashMap<String, String>` as an association
list in which every insertion replaces the previous binding of the key.
Only key lookups are observable, matching the hash map. -/
abbrev FM := List (String × String)

/-- `HashMap::insert`. -/
def fmInsert (m : FM) (k v : String) : FM :=
  if (List.any m (fun p => p.1 = k)) then
    List.map (fun p => if p.1 = k then (k, v) else p) m
  else m ++ [(k, v)]

/-- `HashMap::get`. -/
def fmGet (m : FM) (k : String) : Option String :=
  (List.find? (fun p => p.1 = k) m).map (fun p => p.2)

/-- The `SYSTEM_FIELDS` whitelist of `planning_md_repo.rs`. -/
def SYSTEM_FIELDS : List String :=
  ["fm_version", "id", "title", "status", "priority",
   "tags", "estimate_min", "due_date", "created_at", "updated_at"]

/-- One parsed front-matter line: trim, skip empty lines, split at the first
colon, trim key and value, insert into the map. -/
def parseFMLine (m : FM) (line : List Char) : FM :=
  let line := trimL line
  if line = [] then m
  else
    match splitOnceColon line with
    | some (k, v) => fmInsert m (String.mk (trimL k)) (String.mk (trimL v))
    | none => m

/-- `PlanningMdRepo::parse_frontmatter`: a file that does not start with
`---`, or whose opening `---` is never closed, parses as no front-matter with
the whole content as body; otherwise the block between the first `---` and
the next `---` is parsed line-wise and the body is everything after the
closing delimiter with leading whitespace trimmed. -/
def parseFrontmatter (content : String) : Option FM × String :=
  let l := content.data
  if ¬ (List.isPrefixOf "---".data l) then (none, content)
  else
    match findSub (l.drop 3) "---".data with
    | none => (none, content)
    | some endIdx =>
      let fmContent := (l.drop 3).take endIdx
      let contentAfter := trimStartL (l.drop (endIdx + 6))
      let fm := (splitLinesL fmContent).foldl parseFMLine []
      (some fm, String.mk contentAfter)

/-- Newline-terminate and concatenate lines: `joinNl [a, b] = "a\nb\n"`,
so `x ++ "\n" ++ joinNl ls ++ y` is the newline-join of `x :: ls ++ [y]`. -/
def joinNl (ls : List String) : String :=
  ls.foldr (fun l acc => l ++ "\n" ++ acc) ""

/-- The whitelisted keys that `generate_frontmatter` serializes for a given
map: the `SYSTEM_FIELDS` present in the map, in whitelist order, skipping
`fm_version` (which is always emitted separately with value `2`). -/
def frontmatterKeysOf (fm : FM) : List String :=
  SYSTEM_FIELDS.filter (fun f => f ≠ "fm_version" ∧ (fmGet fm f).isSome)

/-- The whitelisted field lines emitted by `generate_frontmatter`. -/
def fieldLinesOf (fm : FM) : List String :=
  (frontmatterKeysOf fm).map (fun f => f ++ ": " ++ (fmGet fm f).getD "")

/-- `PlanningMdRepo::generate_frontmatter`: the newline-join of the lines
`---`, `fm_version: 2`, the whitelisted field lines, `---` and a final empty
line. -/
def generateFrontmatter (fm : FM) : String :=
  "---\n" ++ joinNl ("fm_version: 2" :: fieldLinesOf fm) ++ "---\n"

/-- Content transformation performed by
`PlanningMdRepo::update_task_frontmatter` on an existing file: parse the
front-matter, merge in the whitelisted entries of the update map, force
`fm_version`, re-serialize, and append the (parsed) body.  Locking, the
missing-file early return and the atomic temp-file/rename protocol are I/O
concerns outside this pure content function. -/
def updateFrontmatterContent (content : String)
    (updates : List (String × String)) : String :=
  let parsed := parseFrontmatter content
  let merged0 := parsed.1.getD []
  let merged1 := updates.foldl
    (fun m kv =>
      if SYSTEM_FIELDS.contains kv.1 then fmInsert m kv.1 kv.2 else m)
    merged0
  let merged := fmInsert merged1 "fm_version" "2"
  generateFrontmatter merged ++ parsed.2

/-- Content transformation performed by `PlanningMdRepo::upsert_task_md`:
parse any front-matter already present in the provided content, force `id`,
`title` and `fm_version`, re-serialize, and append the body. -/
def upsertTaskMdContent (taskId title content : String) : String :=
  let parsed := parseFrontmatter content
  let fm0 := parsed.1.getD []
  let fm1 := fmInsert fm0 "id" taskId
  let fm2 := fmInsert fm1 "title" title
  let fm3 := fmInsert fm2 "fm_version" "2"
  generateFrontmatter fm3 ++ parsed.2

/-- The raw text after the closing `---` delimiter of the front-matter
block, located exactly as `parse_frontmatter` locates it, but without the
`trim_start` the parser applies to the body it returns.  This observes the
on-disk bytes following the block. -/
def rawBodyAfter (content : String) : Option String :=
  let l := content.data
  if ¬ (List.isPrefixOf "---".data l) then none
  else
    (findSub (l.drop 3) "---".data).map
      (fun endIdx => String.mk (l.drop (endIdx + 6)))

/-- Whether three consecutive dashes occur anywhere in `l` (the configuring
fact for where `str::find("---")` locates the closing delimiter). -/
def isDash2 : List Char → Bool
  | [] => false
  | [_] => false
  | a :: b :: _ => decide (a = '-') && decide (b = '-')

/-- `hasTriple l = true` iff `---` occurs as a contiguous substring of `l`. -/
def hasTriple : List Char → Bool
  | [] => false
  | c :: rest => (decide (c = '-') && isDash2 rest) || hasTriple rest

/-- A front-matter value that survives serialization and re-parsing
unchanged: it carries no surrounding whitespace (Rust `trim` is the parser's
normalization), spans a single line, and does not contain the `---`
delimiter. -/
def cleanValue (v : String) : Prop :=
  trimL v.data = v.data ∧ '\n' ∉ v.data ∧ hasTriple v.data = false

/-- The whitelisted merge `update_task_frontmatter` performs: fold the
update map into the existing front-matter, keeping only `SYSTEM_FIELDS`
keys (before `fm_version` is forced to `2`). -/
def mergedOf (fm : FM) (u : List (String × String)) : FM :=
  u.foldl
    (fun m kv =>
      if SYSTEM_FIELDS.contains kv.1 then fmInsert m kv.1 kv.2 else m)
    fm

/-- The association list a re-parse of `generate_frontmatter m` produces:
`fm_version: 2` first, then exactly the whitelisted keys present in `m`,
in `SYSTEM_FIELDS` order, with their values in `m`. -/
def parsedBlockOf (m : FM) : FM :=
  ("fm_version", "2") ::
    (frontmatterKeysOf m).map (fun f => (f, (fmGet m f).getD ""))

/-- `PlanningMdRepo::get_task_md_relative_path` as present in the copy of
`planning_md_repo.rs` under review: keyed by the task id. -/
def getTaskMdRelativePath (taskId : String) : String :=
  ".planning/tasks/" ++ taskId ++ ".md"

/-- Modelled from the spec: the slug-keyed
`get_task_md_relative_path(task_id, slug)` that `planning_service.rs`
actually calls is missing from the reviewed tree (the copy of
`planning_md_repo.rs` present is an older revision whose path helpers take
no slug); the spec fixes the persisted layout as `.planning/tasks/<slug>.md`
("or equivalent per-task path keyed by slug"). -/
def getTaskMdRelativePathSlug (_taskId slug : String) : String :=
  ".planning/tasks/" ++ slug ++ ".md"

/-- Characters rejected by `generate_slug` (`paths.rs`). -/
def isIllegalSlugChar (c : Char) : Bool :=
  c = '/' || c = '\\' || c = ':' || c = '*' || c = '?' || c = '"' ||
  c = '<' || c = '>' || c = '|'

/-- Rust `char::is_control` (Unicode Cc). -/
def isControlChar (c : Char) : Bool :=
  c.val < 32 || c.val = 127 || (128 ≤ c.val && c.val ≤ 159)

/-- Fixpoint of the `while slug.contains("__") { replace("__", "_") }` loop
of `generate_slug`: every maximal run of underscores collapses to one. -/
def collapseUnderscores : List Char → List Char
  | [] => []
  | [c] => [c]
  | c :: d :: rest =>
    if c = '_' ∧ d = '_' then collapseUnderscores (d :: rest)
    else c :: collapseUnderscores (d :: rest)

/-- UTF-8 byte length (Rust `str::len`). -/
def utf8Len (l : List Char) : Nat := (l.map Char.utf8Size).sum

/-- `paths::generate_slug`: replace illegal/control characters by
underscores, collapse underscore runs, replace spaces by underscores, trim
underscores at both ends, truncate at the 50th character when the byte
length exceeds 50 and a 50th character exists, and fall back to "task" for
an empty result. -/
def generateSlug (title : String) : String :=
  let s1 := title.data.map
    (fun c => if isIllegalSlugChar c || isControlChar c then '_' else c)
  let s2 := collapseUnderscores s1
  let s3 := s2.map (fun c => if c = ' ' then '_' else c)
  let s4 := (s3.dropWhile (· = '_')).reverse.dropWhile (· = '_') |>.reverse
  let s5 := if utf8Len s4 > 50 ∧ s4.length > 50 then s4.take 50 else s4
  if s5 = [] then "task" else String.mk s5

/-- Markdown template built inline by `PlanningService::create_task` (and
`open_task_note`) for a task's initial note. -/
def taskMdTemplate (t : Task) : String :=
  "---\nfm_version: 2\nid: " ++ t.id ++
  "\ntitle: " ++ t.title ++
  "\nstatus: " ++ statusToString t.status ++
  "\npriority: " ++ ((t.priority.map priorityToString).getD "p3") ++
  "\ntags: " ++ ((t.tags.map
      (fun tags => "[" ++ String.intercalate ", " tags ++ "]")).getD "[]") ++
  "\nestimate_min: " ++ ((t.estimate_min.map toString).getD "null") ++
  "\ndue_date: " ++ (t.due_date.getD "null") ++
  "\ncreated_at: " ++ t.created_at ++
  "\nupdated_at: " ++ t.updated_at ++
  "\n---\n\n<!-- \nFrontmatter 由系统维护；正文为你的笔记区。\n-->\n\n## Notes\n\n- \n"

/-- Calendar date, the model of chrono's `NaiveDate`. -/
structure Date where
  y : Nat
  m : Nat
  d : Nat
deriving DecidableEq, Repr

/-- Gregorian leap year. -/
def isLeap (y : Nat) : Bool :=
  y % 4 = 0 && (y % 100 ≠ 0 || y % 400 = 0)

/-- Length of a month. -/
def daysInMonth (y m : Nat) : Nat :=
  if m = 1 ∨ m = 3 ∨ m = 5 ∨ m = 7 ∨ m = 8 ∨ m = 10 ∨ m = 12 then 31
  else if m = 4 ∨ m = 6 ∨ m = 9 ∨ m = 11 then 30
  else if m = 2 then (if isLeap y then 29 else 28)
  else 0

/-- Days since 1970-01-01 of a civil date (floored-division form of the
standard days-from-civil algorithm); models the day distance chrono computes
via `signed_duration_since(..).num_days()` on `NaiveDate`s. -/
def rataDie (dt : Date) : Int :=
  let y : Int := if dt.m ≤ 2 then (dt.y : Int) - 1 else (dt.y : Int)
  let mp : Int := if dt.m > 2 then (dt.m : Int) - 3 else (dt.m : Int) + 9
  let era : Int := Int.fdiv y 400
  let yoe : Int := y - era * 400
  let doy : Int := Int.fdiv (153 * mp + 2) 5 + (dt.d : Int) - 1
  let doe : Int := yoe * 365 + Int.fdiv yoe 4 - Int.fdiv yoe 100 + doy
  era * 146097 + doe - 719468

/-- Digit-string to number. -/
def digitsToNat (l : List Char) : Option Nat :=
  if l ≠ [] ∧ l.all Char.isDigit then
    some (l.foldl (fun n c => n * 10 + (c.toNat - 48)) 0)
  else none

/-- chrono `NaiveDate::parse_from_str(s, "%Y-%m-%d")`: a 4-digit year, 1-2
digit month and day, and a real calendar date. -/
def parseDate (s : String) : Option Date :=
  match s.data.splitOn '-' with
  | [ys, ms, ds] =>
    if ys.length = 4 ∧ 1 ≤ ms.length ∧ ms.length ≤ 2 ∧ 1 ≤ ds.length ∧
        ds.length ≤ 2 then
      match digitsToNat ys, digitsToNat ms, digitsToNat ds with
      | some y, some m, some d =>
        if 1 ≤ m ∧ m ≤ 12 ∧ 1 ≤ d ∧ d ≤ daysInMonth y m then
          some ⟨y, m, d⟩
        else none
      | _, _, _ => none
    else none
  | _ => none

/-- Zero-padded two-digit rendering. -/
def pad2 (n : Nat) : String :=
  if n < 10 then "0" ++ toString n else toString n

/-- Parse an `HH:MM:SS` time. -/
def parseTime (l : List Char) : Option (Nat × Nat × Nat) :=
  match l.splitOn ':' with
  | [hs, ms, ss] =>
    if hs.length = 2 ∧ ms.length = 2 ∧ ss.length = 2 then
      match digitsToNat hs, digitsToNat ms, digitsToNat ss with
      | some h, some m, some s =>
        if h < 24 ∧ m < 60 ∧ s < 60 then some (h, m, s) else none
      | _, _, _ => none
    else none
  | _ => none

/-- chrono `NaiveDateTime::parse_from_str(s, "%Y-%m-%dT%H:%M:%S")`, paired
with `ndt.time().to_string()` (canonical `HH:MM:SS`).  A bare date has no
`T` part and fails. -/
def parseNaiveDateTime (s : String) : Option (Date × String) :=
  match s.data.findIdx? (· = 'T') with
  | none => none
  | some i =>
    match parseDate ⟨s.data.take i⟩, parseTime (s.data.drop (i + 1)) with
    | some dt, some (h, m, sec) =>
      some (dt, pad2 h ++ ":" ++ pad2 m ++ ":" ++ pad2 sec)
    | _, _ => none

/-- A valid RFC3339 numeric offset or `Z`. -/
def validOffset (l : List Char) : Bool :=
  match l with
  | ['Z'] => true
  | ['z'] => true
  | sign :: rest =>
    (sign = '+' || sign = '-') &&
    (match rest.splitOn ':' with
     | [hs, ms] =>
       (hs.length = 2 && ms.length = 2) &&
       (match digitsToNat hs, digitsToNat ms with
        | some h, some m => decide (h < 24 ∧ m < 60)
        | _, _ => false)
     | _ => false)
  | [] => false

/-- chrono `DateTime::parse_from_rfc3339`, paired with
`dt.date_naive()` / `dt.format("%H:%M:%S")` (both taken in the parsed
offset, no conversion): date, `T`, `HH:MM:SS`, optional fractional seconds,
then `Z` or a `±HH:MM` offset.  A bare date or an offset-free date-time
fails. -/
def parseRfc3339 (s : String) : Option (Date × String) :=
  match s.data.findIdx? (· = 'T') with
  | none => none
  | some i =>
    match parseDate ⟨s.data.take i⟩ with
    | none => none
    | some dt =>
      let rest := s.data.drop (i + 1)
      if rest.length < 9 then none
      else
        match parseTime (rest.take 8) with
        | none => none
        | some (h, m, sec) =>
          let tail := rest.drop 8
          let tail := match tail with
            | '.' :: more => more.dropWhile Char.isDigit
            | _ => tail
          if validOffset tail then
            some (dt, pad2 h ++ ":" ++ pad2 m ++ ":" ++ pad2 sec)
          else none

/-- The permissive start-date parse chain of `get_today_data`: RFC3339
date-time, then naive date-time, then bare date (with start time
`00:00:00`). -/
def parseStartDateChain (s : String) : Option (Date × String) :=
  match parseRfc3339 s with
  | some r => some r
  | none =>
    match parseNaiveDateTime s with
    | some r => some r
    | none => (parseDate s).map (fun d => (d, "00:00:00"))

/-- Rust integer remainder `%` (truncated). -/
def rustRem (a b : Int) : Int := Int.tmod a b

/-- Recurrence-membership test of `get_today_data` for one strategy. -/
def isRecurrence (strategy : String) (current startDate : Date)
    (interval : Int) : Bool :=
  let days := rataDie current - rataDie startDate
  if strategy = "day" then rustRem days interval = 0
  else if strategy = "week" then rustRem days (7 * interval) = 0
  else if strategy = "month" then
    if current.d ≠ startDate.d then false
    else
      let totalMonths : Int :=
        ((current.y : Int) - (startDate.y : Int)) * 12 +
          ((current.m : Int) - (startDate.m : Int))
      rustRem totalMonths interval = 0
  else if strategy = "year" then
    current.d = startDate.d && current.m = startDate.m &&
      rustRem ((current.y : Int) - (startDate.y : Int)) interval = 0
  else false

/-- The per-task timeline expansion closure inside
`PlanningRepo::get_today_data` (the Recurrence Expander): a concrete
`scheduled_start` inside today's `[T00:00:00, T23:59:59]` window wins;
otherwise the periodicity rule is evaluated — unparseable `today` or
`start_date` yields nothing, `today` before the start date yields nothing,
an exceeded `date` end rule yields nothing, and on a strategy match a clone
of the task rescheduled to today at the original start time is produced. -/
def expandTask (task : Task) (today : String) : List Task :=
  let todayStart := today ++ "T00:00:00"
  let todayEnd := today ++ "T23:59:59"
  let inWindow :=
    match task.scheduled_start with
    | some start => decide (todayStart ≤ start ∧ start ≤ todayEnd)
    | none => false
  if inWindow then [task]
  else
    match task.periodicity with
    | none => []
    | some p =>
      match parseDate today with
      | none => []
      | some current =>
        match parseStartDateChain p.start_date with
        | none => []
        | some (startDate, startTimeStr) =>
          if rataDie current < rataDie startDate then []
          else
            let pastEnd :=
              if p.end_rule = "date" then
                match p.end_date with
                | some eds =>
                  match parseDate eds with
                  | some endDate => decide (rataDie endDate < rataDie current)
                  | none => false
                | none => false
              else false
            if pastEnd then []
            else if isRecurrence p.strategy current startDate (max p.interval 1)
            then
              [{ task with scheduled_start := some (today ++ "T" ++ startTimeStr) }]
            else []

/-- `CreateTaskInput` from `domain/planning.rs`. -/
structure CreateTaskInput where
  title : String
  description : Option String := none
  status : TaskStatus
  priority : Option TaskPriority := none
  due_date : Option String := none
  board_id : Option String := none
  estimate_min : Option Int := none
  tags : Option (List String) := none
  labels : Option (List String) := none
  subtasks : Option (List Subtask) := none
  periodicity : Option TaskPeriodicity := none
  scheduled_start : Option String := none
  scheduled_end : Option String := none
  note_path : Option String := none
deriving Repr

/-- `UpdateTaskInput` from `domain/planning.rs`. -/
structure UpdateTaskInput where
  id : String
  title : Option String := none
  description : Option String := none
  status : Option TaskStatus := none
  priority : Option TaskPriority := none
  tags : Option (List String) := none
  labels : Option (List String) := none
  subtasks : Option (List Subtask) := none
  periodicity : Option TaskPeriodicity := none
  due_date : Option (Option String) := none
  board_id : Option String := none
  order_index : Option Int := none
  estimate_min : Option Int := none
  scheduled_start : Option String := none
  scheduled_end : Option String := none
  note_path : Option String := none
  archived : Option Int := none
deriving Repr

/-- `NotFound` error raised by `get_task_or_not_found`. -/
def errNotFound (tid : String) : ApiError :=
  ⟨"NotFound", "Task with id " ++ tid ++ " not found"⟩

/-- `DUE_DATE_REQUIRED` error for todo/doing tasks. -/
def errDueDateRequired : ApiError :=
  ⟨"DUE_DATE_REQUIRED", "due_date is required for todo/doing tasks"⟩

/-- `DUE_DATE_REQUIRED` error for a patch clearing the due date. -/
def errDueDateCleared : ApiError :=
  ⟨"DUE_DATE_REQUIRED", "due_date cannot be cleared for todo/doing tasks"⟩

/-- `BOARD_ID_REQUIRED` error. -/
def errBoardIdRequired : ApiError := ⟨"BOARD_ID_REQUIRED", "board_id cannot be empty"⟩

/-- `InvalidStateTransition` errors of the lifecycle preconditions. -/
def errAlreadyDone : ApiError := ⟨"InvalidStateTransition", "Task is already done"⟩

/-- Precondition failure of `reopen_task`. -/
def errNotDoneYet : ApiError := ⟨"InvalidStateTransition", "Task is not done yet"⟩

/-- Precondition failure of `start_task` on a doing task. -/
def errAlreadyInProgress : ApiError :=
  ⟨"InvalidStateTransition", "Task is already in progress"⟩

/-- Precondition failure of `start_task` on a done task. -/
def errCannotStartDone : ApiError :=
  ⟨"InvalidStateTransition", "Cannot start a done task"⟩

/-- Precondition failure of `stop_task`. -/
def errNotInProgress : ApiError :=
  ⟨"InvalidStateTransition", "Task is not in progress"⟩

/-- Error with which an injected Markdown-mirror write failure surfaces
(`update_task_frontmatter` fails with a file error and the services
propagate it with `?`). -/
def errMirrorWrite : ApiError := ⟨"FileWriteError", "Failed to write temp file"⟩

/-- Rust `Option::map(trim).filter(non-empty)` used on `due_date` and
`board_id` inputs. -/
def trimFilter (o : Option String) : Option String :=
  match o with
  | some v => let t := rustTrim v; if t = "" then none else some t
  | none => none

/-- The slug-uniqueness probe loop of `PlanningService::create_task`
(`loop { if !task_dir_path(...).exists() break; slug = base_counter }`)
with explicit fuel — a vault holds finitely many directories, so the
source's unbounded loop terminates exactly when some candidate is free. -/
def resolveSlugAux (dirExists : String → Bool) (base : String) :
    Nat → Nat → String
  | 0, counter => base ++ "_" ++ toString counter
  | fuel + 1, counter =>
    let cand := base ++ "_" ++ toString counter
    if dirExists cand then resolveSlugAux dirExists base fuel (counter + 1)
    else cand

/-- Resolve the final slug for a new task. -/
def resolveSlug (dirExists : String → Bool) (base : String) : String :=
  if dirExists base then resolveSlugAux dirExists base 1000000 1 else base

/-- Result of the service-level `create_task`: the relational store, the
Markdown files written (vault-relative path and content), and the returned
value. -/
structure SvcCreateOut where
  db : DBState
  files : List (String × String)
  out : Except ApiError Task
deriving Repr

/-- `PlanningService::create_task`: require a due date for todo/doing,
resolve a collision-free slug, insert via the repo (`md_rel_path` initially
NULL), then best-effort write the initial Markdown note and back-fill
`task_dir_slug`/`md_rel_path` (and `note_path` when the input gave none); a
mirror failure (`mdOk = false`) is logged only and the repo row is still
returned.  `dirExists` is the vault directory probe, `id`/`now` stand for
the fresh UUID and wall clock. -/
def svcCreateTask (st : DBState) (input : CreateTaskInput)
    (dirExists : String → Bool) (id now : String) (mdOk : Bool) :
    SvcCreateOut :=
  let dueVal := trimFilter input.due_date
  if (input.status = .todo ∨ input.status = .doing) ∧ dueVal = none then
    ⟨st, [], .error errDueDateRequired⟩
  else
    let board := trimFilter input.board_id
    let labels := match input.labels with
      | some l => some l
      | none => input.tags
    let completedAt := if input.status = .done then some now else none
    let slug := resolveSlug dirExists (generateSlug input.title)
    let r := repoCreateTask st id now input.title input.description
      input.status input.priority dueVal board input.estimate_min labels
      input.subtasks input.periodicity input.scheduled_start
      input.scheduled_end input.note_path completedAt (some slug) none
    match r.2 with
    | .error e => ⟨r.1, [], .error e⟩
    | .ok task =>
      if mdOk then
        let path := getTaskMdRelativePathSlug task.id slug
        let content := upsertTaskMdContent task.id task.title (taskMdTemplate task)
        let st2 := repoUpdateTaskPathInfo r.1 task.id slug path now
        let st3 := if input.note_path = none
          then repoUpdateTaskNotePath st2 task.id path now else st2
        ⟨st3, [(path, content)], .ok task⟩
      else ⟨r.1, [], .ok task⟩

/-- `next_status` of `PlanningService::update_task`: the patched status or
the current one. -/
def updNextStatus (input : UpdateTaskInput) (task : Task) : TaskStatus :=
  input.status.getD task.status

/-- `due_date_update` of `PlanningService::update_task`: absent patch stays
absent, an explicit null or blank string clears, otherwise the trimmed
value. -/
def updDueUpdate (input : UpdateTaskInput) : Option (Option String) :=
  match input.due_date with
  | none => none
  | some none => some none
  | some (some v) =>
    let t := rustTrim v
    if t = "" then some none else some (some t)

/-- `effective_due_date` of `PlanningService::update_task`. -/
def updEffectiveDue (input : UpdateTaskInput) (task : Task) :
    Option String :=
  match updDueUpdate input with
  | some v => v
  | none => task.due_date

/-- `completed_at` update derived from the status transition in
`PlanningService::update_task`. -/
def updCompletedUpdate (task : Task) (nextStatus : TaskStatus)
    (now : String) : Option (Option String) :=
  if task.status = .done ∧ nextStatus ≠ .done then some none
  else if task.status ≠ .done ∧ nextStatus = .done then some (some now)
  else none

/-- Board-id validation of `PlanningService::update_task`: a provided value
that trims to empty is rejected. -/
def updBoardBad (input : UpdateTaskInput) : Bool :=
  match input.board_id with
  | some v => decide (rustTrim v = "")
  | none => false

/-- Field patch handed by `PlanningService::update_task` to the repo
(labels falling back to tags, trimmed board id, derived due-date and
completed-at updates). -/
def updFields (input : UpdateTaskInput) (task : Task) (now : String) :
    UpdateFields :=
  { title := input.title
    description := input.description
    status := input.status
    priority := input.priority
    tags := match input.labels with
      | some l => some l
      | none => input.tags
    subtasks := input.subtasks
    periodicity := input.periodicity
    order_index := input.order_index
    estimate_min := input.estimate_min
    scheduled_start := input.scheduled_start
    scheduled_end := input.scheduled_end
    due_date := updDueUpdate input
    board_id := input.board_id.map rustTrim
    note_path := input.note_path
    archived := input.archived
    completed_at := updCompletedUpdate task (updNextStatus input task) now }

/-- `PlanningService::update_task`: existence check, due-date rules for the
resulting todo/doing status, `completed_at` derived from the status
transition, board-id validation, repo update, then the front-matter sync —
whose failure (`mdOk = false`) is propagated with `?` after the relational
write. -/
def svcUpdateTask (st : DBState) (input : UpdateTaskInput) (now : String)
    (mdOk : Bool) : DBState × Except ApiError Unit :=
  match getTask st input.id with
  | none => (st, .error (errNotFound input.id))
  | some task =>
    if (updNextStatus input task = .todo ∨ updNextStatus input task = .doing)
        ∧ updEffectiveDue input task = none then
      (st, .error errDueDateRequired)
    else if (updNextStatus input task = .todo ∨
        updNextStatus input task = .doing) ∧ updDueUpdate input = some none
    then (st, .error errDueDateCleared)
    else if updBoardBad input then (st, .error errBoardIdRequired)
    else
      let r := repoUpdateTask st input.id (updFields input task now) now
      match r.2 with
      | .error e => (r.1, .error e)
      | .ok _ => if mdOk then (r.1, .ok ()) else (r.1, .error errMirrorWrite)

/-- `PlanningService::mark_task_done`: `NotFound` when absent,
`InvalidStateTransition` when already done, repo write, then the
front-matter sync whose failure is propagated with `?`. -/
def svcMarkTaskDone (st : DBState) (tid now : String) (mdOk : Bool) :
    DBState × Except ApiError Unit :=
  match getTask st tid with
  | none => (st, .error (errNotFound tid))
  | some task =>
    if task.status = .done then (st, .error errAlreadyDone)
    else
      let r := repoMarkTaskDone st tid now
      match r.2 with
      | .error e => (r.1, .error e)
      | .ok _ => if mdOk then (r.1, .ok ()) else (r.1, .error errMirrorWrite)

/-- `PlanningService::reopen_task`: `NotFound` when absent, must be done,
must carry a due date, repo write, then the propagated front-matter sync. -/
def svcReopenTask (st : DBState) (tid now : String) (mdOk : Bool) :
    DBState × Except ApiError Unit :=
  match getTask st tid with
  | none => (st, .error (errNotFound tid))
  | some task =>
    if task.status ≠ .done then (st, .error errNotDoneYet)
    else if task.due_date = none then (st, .error errDueDateRequired)
    else
      let r := repoReopenTask st tid now
      match r.2 with
      | .error e => (r.1, .error e)
      | .ok _ => if mdOk then (r.1, .ok ()) else (r.1, .error errMirrorWrite)

/-- `PlanningService::start_task`: `NotFound` when absent, must not be doing
or done, must carry a due date, repo start, then the propagated
front-matter sync. -/
def svcStartTask (st : DBState) (tid timerId now : String)
    (parseElapsed : String → String → Option Int) (mdOk : Bool) :
    DBState × Except ApiError Unit :=
  match getTask st tid with
  | none => (st, .error (errNotFound tid))
  | some task =>
    if task.status = .doing then (st, .error errAlreadyInProgress)
    else if task.status = .done then (st, .error errCannotStartDone)
    else if task.due_date = none then (st, .error errDueDateRequired)
    else
      let r := repoStartTask st tid timerId now parseElapsed
      match r.2 with
      | .error e => (r.1, .error e)
      | .ok _ => if mdOk then (r.1, .ok ()) else (r.1, .error errMirrorWrite)

/-- `PlanningService::stop_task`: `NotFound` when absent, must be doing,
must carry a due date, repo stop, then the propagated front-matter sync. -/
def svcStopTask (st : DBState) (tid now : String)
    (parseElapsed : String → String → Option Int) (mdOk : Bool) :
    DBState × Except ApiError Unit :=
  match getTask st tid with
  | none => (st, .error (errNotFound tid))
  | some task =>
    if task.status ≠ .doing then (st, .error errNotInProgress)
    else if task.due_date = none then (st, .error errDueDateRequired)
    else
      let r := repoStopTask st tid now parseElapsed
      match r.2 with
      | .error e => (r.1, .error e)
      | .ok _ => if mdOk then (r.1, .ok ()) else (r.1, .error errMirrorWrite)

/-- Per-entry read-back-and-sync loop of `PlanningService::reorder_tasks`,
run after the batch repo update. -/
def reorderSyncLoop (st1 : DBState) (mdOk : Bool) :
    List ReorderTaskInput → Except ApiError Unit
  | [] => .ok ()
  | i :: rest =>
    match getTask st1 i.id with
    | none => .error (errNotFound i.id)
    | some _ => if mdOk then reorderSyncLoop st1 mdOk rest
                else .error errMirrorWrite

/-- `PlanningService::reorder_tasks`: batch repo update first, then the
per-task front-matter sync loop (whose failures are propagated after the
relational write already happened). -/
def svcReorderTasks (st : DBState) (inputs : List ReorderTaskInput)
    (now : String) (mdOk : Bool) : DBState × Except ApiError Unit :=
  let st1 := repoReorderTasks st inputs now
  (st1, reorderSyncLoop st1 mdOk inputs)

/-- `PlanningService::delete_task`: existence check, transactional repo
delete, then best-effort Markdown deletion (failure logged only). -/
def svcDeleteTask (st : DBState) (tid : String) :
    DBState × Except ApiError Unit :=
  match getTask st tid with
  | none => (st, .error (errNotFound tid))
  | some _ =>
    let r := repoDeleteTask st tid
    match r.2 with
    | .error e => (r.1, .error e)
    | .ok _ => (r.1, .ok ())

/-- Baseline concrete task row used by witness instantiations. -/
def sampleTask : Task :=
  { id := "t1", title := "A", description := none, status := .todo
    priority := none, tags := none, labels := none, subtasks := none
    periodicity := none, order_index := 5, estimate_min := none
    scheduled_start := none, scheduled_end := none
    due_date := some "2024-01-01", board_id := none, note_path := none
    task_dir_slug := none, md_rel_path := none, created_at := "c"
    updated_at := "u", completed_at := none, archived := 0 }

/-- Concrete doing task without timers. -/
def doingTask : Task := { sampleTask with status := .doing }

/-- Concrete done task with a null due date. -/
def doneTaskNoDue : Task :=
  { sampleTask with
    status := .done
    due_date := none
    completed_at := some "2024-01-02T00:00:00Z" }

/-- Concrete todo task with a null due date. -/
def todoTaskNoDue : Task := { sampleTask with due_date := none }

/-- Store with a todo, a done and a doing task, all carrying due dates. -/
def mixedStore : DBState :=
  ⟨[sampleTask,
    { sampleTask with id := "t2", status := .done, completed_at := some "x" },
    { sampleTask with id := "t3", status := .doing }], []⟩

/-- States of the relational store reachable through this component's task
and timer operations, starting from the freshly initialized empty store. -/
inductive ReachableRepo : DBState → Prop where
  | init : ReachableRepo DBState.empty
  | create (st : DBState) (id now title : String)
      (description : Option String) (status : TaskStatus)
      (priority : Option TaskPriority) (due_date board_id : Option String)
      (estimate_min : Option Int) (tags : Option (List String))
      (subtasks : Option (List Subtask))
      (periodicity : Option TaskPeriodicity)
      (scheduled_start scheduled_end note_path completed_at task_dir_slug
        md_rel_path : Option String) (h : ReachableRepo st) :
      ReachableRepo (repoCreateTask st id now title description status
        priority due_date board_id estimate_min tags subtasks periodicity
        scheduled_start scheduled_end note_path completed_at task_dir_slug
        md_rel_path).1
  | update (st : DBState) (tid : String) (f : UpdateFields) (now : String)
      (h : ReachableRepo st) : ReachableRepo (repoUpdateTask st tid f now).1
  | markDone (st : DBState) (tid now : String) (h : ReachableRepo st) :
      ReachableRepo (repoMarkTaskDone st tid now).1
  | reopen (st : DBState) (tid now : String) (h : ReachableRepo st) :
      ReachableRepo (repoReopenTask st tid now).1
  | start (st : DBState) (tid timerId now : String)
      (pe : String → String → Option Int) (h : ReachableRepo st) :
      ReachableRepo (repoStartTask st tid timerId now pe).1
  | stop (st : DBState) (tid now : String)
      (pe : String → String → Option Int) (h : ReachableRepo st) :
      ReachableRepo (repoStopTask st tid now pe).1
  | reorder (st : DBState) (inputs : List ReorderTaskInput) (now : String)
      (h : ReachableRepo st) : ReachableRepo (repoReorderTasks st inputs now)
  | delete (st : DBState) (tid : String) (h : ReachableRepo st) :
      ReachableRepo (repoDeleteTask st tid).1
  | notePath (st : DBState) (tid path now : String) (h : ReachableRepo st) :
      ReachableRepo (repoUpdateTaskNotePath st tid path now)
  | pathInfo (st : DBState) (tid slug rel now : String)
      (h : ReachableRepo st) :
      ReachableRepo (repoUpdateTaskPathInfo st tid slug rel now)

/-- Store with one open and one closed timer. -/
def twoTimerStore : DBState :=
  ⟨[doingTask],
   [⟨"tmA", "t1", "sA", none, 0, "manual"⟩,
    ⟨"tmB", "t1", "sB", some "e", 9, "manual"⟩]⟩

/-- THE completed-at invariant for one row: `completed_at` is set iff the
status is `Done`. -/
def TaskCompOk (t : Task) : Prop :=
  t.completed_at.isSome = true ↔ t.status = .done

instance (t : Task) : Decidable (TaskCompOk t) := by
  unfold TaskCompOk
  infer_instance

/-- The completed-at invariant over the whole store. -/
def CompletedIffDone (st : DBState) : Prop := ∀ t ∈ st.tasks, TaskCompOk t

instance (st : DBState) : Decidable (CompletedIffDone st) := by
  unfold CompletedIffDone
  infer_instance

/-- Primary-key uniqueness of task ids (guaranteed by the `tasks` table's
`id TEXT PRIMARY KEY`). -/
def UniqueIds (st : DBState) : Prop := (st.tasks.map Task.id).Nodup

instance (st : DBState) : Decidable (UniqueIds st) := by
  unfold UniqueIds
  infer_instance

/-- The claim's periodicity: every second week from 2024-01-01, no end. -/
def weeklyP : TaskPeriodicity := ⟨"week", 2, "2024-01-01", "never", none, none⟩

/-- A task carrying `weeklyP` and no concrete schedule. -/
def weeklyTask : Task :=
  { sampleTask with periodicity := some weeklyP, scheduled_start := none }

/-- `joinChar` is `joinNl` at the character-list level. -/
def joinChar (ls : List (List Char)) : List Char :=
  (ls.map (fun l => l ++ ['\n'])).flatten

/-- The serialized front-matter lines of `generate_frontmatter m`, as
character lists. -/
def fmLinesC (m : FM) : List (List Char) :=
  ("fm_version: 2" :: fieldLinesOf m).map String.data

/-- The interior of the generated block: everything strictly between the
opening `---` and the closing `---`. -/
def fmInterior (m : FM) : List Char :=
  '\n' :: joinChar (fmLinesC m)

/-- Executable form of `cleanValue`, for concrete evaluation. -/
def cleanValueB (v : String) : Bool :=
  decide (trimL v.data = v.data) && decide ('\n' ∉ v.data) && !(hasTriple v.data)

/-- The concrete creation scenario of the spec: task "Buy milk", status
todo, due date 2024-01-01, into an empty store with no existing task
directories; `t1` is the fresh UUID and the timestamp is the wall clock. -/
def buyMilkCreate : SvcCreateOut :=
  svcCreateTask DBState.empty
    { title := "Buy milk", status := .todo, due_date := some "2024-01-01" }
    (fun _ => false) "t1" "2024-01-05T10:00:00Z" true

/-! ### Theorems -/

theorem le_foldl_max (l : List Int) (a : Int) : a ≤ l.foldl max a := by
  induction l generalizing a with
  | nil => simp
  | cons x xs ih => exact le_trans (le_max_left a x) (ih (max a x))

theorem mem_le_foldl_max (l : List Int) (a b : Int) (hb : b ∈ l) :
    b ≤ l.foldl max a := by
  induction l generalizing a with
  | nil => cases hb
  | cons x xs ih =>
    rcases List.mem_cons.mp hb with h | h
    · subst h
      exact le_trans (le_max_right a b) (le_foldl_max xs (max a b))
    · exact ih (max a x) h

theorem foldl_max_mem (l : List Int) (a : Int) :
    l.foldl max a = a ∨ l.foldl max a ∈ l := by
  induction l generalizing a with
  | nil => left; rfl
  | cons x xs ih =>
    rcases ih (max a x) with h | h
    · rcases max_choice a x with hm | hm
      · left; rw [List.foldl_cons, h, hm]
      · right; rw [List.foldl_cons, h, hm]; exact List.mem_cons_self x xs
    · right; exact List.mem_cons_of_mem x h

theorem foldl_maxOrder_eq (xs : List Task) (a : Int) :
    xs.foldl (fun acc u => max acc u.order_index) a
      = (xs.map Task.order_index).foldl max a := by
  induction xs generalizing a with
  | nil => rfl
  | cons x xs ih => simp only [List.foldl_cons, List.map_cons, ih]

theorem maxOrderIndex_ge (tasks : List Task) (s : TaskStatus) (t : Task)
    (ht : t ∈ tasks) (hs : t.status = s) :
    t.order_index ≤ maxOrderIndex tasks s := by
  have htf : t ∈ tasks.filter (fun u => decide (u.status = s)) :=
    List.mem_filter.mpr ⟨ht, by simp [hs]⟩
  cases hft : tasks.filter (fun u => decide (u.status = s)) with
  | nil => rw [hft] at htf; cases htf
  | cons x xs =>
    have hmax : maxOrderIndex tasks s =
        (xs.map Task.order_index).foldl max x.order_index := by
      unfold maxOrderIndex
      rw [hft]
      exact foldl_maxOrder_eq xs x.order_index
    rw [hmax]
    rw [hft] at htf
    rcases List.mem_cons.mp htf with h | h
    · subst h; exact le_foldl_max _ _
    · exact mem_le_foldl_max _ _ _ (List.mem_map_of_mem Task.order_index h)

theorem maxOrderIndex_empty (tasks : List Task) (s : TaskStatus)
    (h : ∀ t ∈ tasks, t.status ≠ s) : maxOrderIndex tasks s = -1 := by
  unfold maxOrderIndex
  have : tasks.filter (fun u => decide (u.status = s)) = [] := by
    apply List.filter_eq_nil_iff.mpr
    intro t ht
    simp [h t ht]
  rw [this]

theorem maxOrderIndex_mem (tasks : List Task) (s : TaskStatus)
    (h : ∃ t ∈ tasks, t.status = s) :
    ∃ t ∈ tasks, t.status = s ∧ t.order_index = maxOrderIndex tasks s := by
  obtain ⟨t, ht, hs⟩ := h
  have htf : t ∈ tasks.filter (fun u => decide (u.status = s)) :=
    List.mem_filter.mpr ⟨ht, by simp [hs]⟩
  cases hft : tasks.filter (fun u => decide (u.status = s)) with
  | nil => rw [hft] at htf; cases htf
  | cons x xs =>
    have hmax : maxOrderIndex tasks s =
        (xs.map Task.order_index).foldl max x.order_index := by
      unfold maxOrderIndex
      rw [hft]
      exact foldl_maxOrder_eq xs x.order_index
    rw [hmax]
    rcases foldl_max_mem (xs.map Task.order_index) x.order_index with h1 | h1
    · refine ⟨x, ?_, ?_, h1.symm⟩
      · have : x ∈ tasks.filter (fun u => decide (u.status = s)) := by
          rw [hft]; exact List.mem_cons_self x xs
        exact (List.mem_filter.mp this).1
      · have : x ∈ tasks.filter (fun u => decide (u.status = s)) := by
          rw [hft]; exact List.mem_cons_self x xs
        simpa using (List.mem_filter.mp this).2
    · obtain ⟨u, hu, hue⟩ := List.mem_map.mp h1
      have humem : u ∈ tasks.filter (fun v => decide (v.status = s)) := by
        rw [hft]; exact List.mem_cons_of_mem x hu
      exact ⟨u, (List.mem_filter.mp humem).1,
        by simpa using (List.mem_filter.mp humem).2, hue⟩

theorem getTask_append_fresh (st : DBState) (row : Task) (id : String)
    (hfresh : ∀ t ∈ st.tasks, t.id ≠ id) (hrow : row.id = id) :
    getTask { st with tasks := st.tasks ++ [row] } id = some row := by
  unfold getTask
  rw [List.find?_append]
  have h1 : st.tasks.find? (fun t => decide (t.id = id)) = none := by
    apply List.find?_eq_none.mpr
    intro t ht
    simp [hfresh t ht]
  rw [h1]
  simp [hrow]

/-- C4: for every `create_task` call with status `S` on a store whose ids do
not already contain the fresh id, the stored row's `order_index` equals one
plus the maximum `order_index` among tasks already in status `S` (strictly
above all of them and exactly one above some of them), or `0` when no task
has status `S`; and the returned `Task` is the row as read back from storage
after the insert. -/
theorem c4_create_task_order_index
    (st : DBState) (id now title : String) (description : Option String)
    (status : TaskStatus) (priority : Option TaskPriority)
    (due_date board_id : Option String) (estimate_min : Option Int)
    (tags : Option (List String)) (subtasks : Option (List Subtask))
    (periodicity : Option TaskPeriodicity)
    (scheduled_start scheduled_end note_path completed_at task_dir_slug
      md_rel_path : Option String)
    (hfresh : ∀ t ∈ st.tasks, t.id ≠ id) :
    ∃ task,
      (repoCreateTask st id now title description status priority due_date
        board_id estimate_min tags subtasks periodicity scheduled_start
        scheduled_end note_path completed_at task_dir_slug md_rel_path).2
        = .ok task ∧
      getTask (repoCreateTask st id now title description status priority
        due_date board_id estimate_min tags subtasks periodicity
        scheduled_start scheduled_end note_path completed_at task_dir_slug
        md_rel_path).1 id = some task ∧
      ((∀ t ∈ st.tasks, t.status ≠ status) → task.order_index = 0) ∧
      (∀ t ∈ st.tasks, t.status = status → t.order_index < task.order_index) ∧
      ((∃ t ∈ st.tasks, t.status = status) →
        ∃ t ∈ st.tasks, t.status = status ∧
          task.order_index = t.order_index + 1) := by
  have hany : (st.tasks.any fun t => decide (t.id = id)) = false := by
    rw [List.any_eq_false]
    intro t ht
    simpa using hfresh t ht
  have hget : getTask { st with tasks := st.tasks ++
      [newTaskRow st id now title description status priority due_date
        board_id estimate_min tags subtasks periodicity scheduled_start
        scheduled_end note_path completed_at task_dir_slug md_rel_path] } id
      = some (newTaskRow st id now title description status priority due_date
        board_id estimate_min tags subtasks periodicity scheduled_start
        scheduled_end note_path completed_at task_dir_slug md_rel_path) :=
    getTask_append_fresh st _ id hfresh rfl
  unfold repoCreateTask
  simp only [hany, Bool.false_eq_true, if_false, hget]
  refine ⟨_, rfl, rfl, ?_, ?_, ?_⟩
  · intro h
    simp [newTaskRow, maxOrderIndex_empty st.tasks status h]
  · intro t ht hs
    have := maxOrderIndex_ge st.tasks status t ht hs
    simp only [newTaskRow]
    omega
  · intro h
    obtain ⟨t, ht, hs, he⟩ := maxOrderIndex_mem st.tasks status h
    refine ⟨t, ht, hs, ?_⟩
    simp only [newTaskRow]
    rw [he]

/-- Witness for C4 at a concrete store holding one todo task with
`order_index` 5: creating another todo task appends at index 6. -/
theorem c4_create_task_order_index_witness :
    (∀ t ∈ (⟨[sampleTask], []⟩ : DBState).tasks, t.id ≠ "t2") ∧
    ∃ task,
      (repoCreateTask ⟨[sampleTask], []⟩ "t2" "now" "B" none .todo none none
        none none none none none none none none none none none).2
        = .ok task ∧
      getTask (repoCreateTask ⟨[sampleTask], []⟩ "t2" "now" "B" none .todo
        none none none none none none none none none none none none
        none).1 "t2" = some task ∧
      ((∀ t ∈ (⟨[sampleTask], []⟩ : DBState).tasks, t.status ≠ .todo) →
        task.order_index = 0) ∧
      (∀ t ∈ (⟨[sampleTask], []⟩ : DBState).tasks, t.status = .todo →
        t.order_index < task.order_index) ∧
      ((∃ t ∈ (⟨[sampleTask], []⟩ : DBState).tasks, t.status = .todo) →
        ∃ t ∈ (⟨[sampleTask], []⟩ : DBState).tasks, t.status = .todo ∧
          task.order_index = t.order_index + 1) :=
  ⟨by decide,
   c4_create_task_order_index ⟨[sampleTask], []⟩ "t2" "now" "B" none .todo
     none none none none none none none none none none none none none
     (by decide)⟩

theorem find?_id_map_update (l : List Task) (tid : String) (g : Task → Task)
    (hg : ∀ u, (g u).id = u.id) :
    (l.map (fun u => if u.id = tid then g u else u)).find?
        (fun u => decide (u.id = tid))
      = (l.find? (fun u => decide (u.id = tid))).map g := by
  induction l with
  | nil => rfl
  | cons x xs ih =>
    by_cases hx : x.id = tid
    · simp [List.find?_cons, hx, hg x]
    · simp only [List.map_cons]
      rw [if_neg hx]
      rw [List.find?_cons_of_neg _ (by simp [hx]),
        List.find?_cons_of_neg _ (by simp [hx])]
      exact ih

/-- Read-back after an `UPDATE ... WHERE id = ?` step. -/
theorem getTask_map_update (st : DBState) (timers : List Timer)
    (tid : String) (g : Task → Task) (hg : ∀ u, (g u).id = u.id) :
    getTask ⟨st.tasks.map (fun u => if u.id = tid then g u else u), timers⟩ tid
      = (getTask st tid).map g := by
  unfold getTask
  exact find?_id_map_update st.tasks tid g hg

/-- C10: for every task in status `Doing` that has no open timer row (no
`task_timer` row with its `task_id` and `stop_at = null`), `stop_task`
still succeeds: it modifies no timer row, sets the task's status to `Todo`,
and returns `Ok` rather than an error. -/
theorem c10_stop_task_without_open_timer
    (st : DBState) (tid now : String) (pe : String → String → Option Int)
    (t : Task) (hget : getTask st tid = some t) (_hdoing : t.status = .doing)
    (hnoopen : ∀ tm ∈ st.timers, tm.task_id = tid → tm.stop_at ≠ none) :
    (repoStopTask st tid now pe).2 = .ok () ∧
    (repoStopTask st tid now pe).1.timers = st.timers ∧
    getTask (repoStopTask st tid now pe).1 tid
      = some { t with status := .todo, updated_at := now } ∧
    ∀ u ∈ st.tasks, u.id ≠ tid → u ∈ (repoStopTask st tid now pe).1.tasks := by
  have hfind : findOpenTimer st.timers tid = none := by
    unfold findOpenTimer
    apply List.find?_eq_none.mpr
    intro tm htm
    simp only [decide_eq_true_eq, not_and]
    intro h1
    exact hnoopen tm htm h1
  unfold repoStopTask
  rw [hfind]
  refine ⟨rfl, rfl, ?_, ?_⟩
  · have := getTask_map_update st st.timers tid
      (fun u => { u with status := .todo, updated_at := now }) (fun _ => rfl)
    simp only [this, hget]
    rfl
  · intro u hu hune
    simp only [List.mem_map]
    exact ⟨u, hu, by rw [if_neg hune]⟩

/-- Witness for C10: a doing task whose store holds one closed timer and no
open one. -/
theorem c10_stop_task_without_open_timer_witness :
    (getTask ⟨[doingTask], [⟨"tm0", "t1", "s", some "e", 3, "manual"⟩]⟩ "t1"
      = some doingTask) ∧
    doingTask.status = .doing ∧
    (∀ tm ∈ (⟨[doingTask], [⟨"tm0", "t1", "s", some "e", 3, "manual"⟩]⟩ :
        DBState).timers, tm.task_id = "t1" → tm.stop_at ≠ none) ∧
    ((repoStopTask ⟨[doingTask], [⟨"tm0", "t1", "s", some "e", 3, "manual"⟩]⟩
        "t1" "now" (fun _ _ => some 0)).2 = .ok () ∧
      (repoStopTask ⟨[doingTask], [⟨"tm0", "t1", "s", some "e", 3, "manual"⟩]⟩
        "t1" "now" (fun _ _ => some 0)).1.timers
        = (⟨[doingTask], [⟨"tm0", "t1", "s", some "e", 3, "manual"⟩]⟩ :
            DBState).timers ∧
      getTask (repoStopTask
        ⟨[doingTask], [⟨"tm0", "t1", "s", some "e", 3, "manual"⟩]⟩
        "t1" "now" (fun _ _ => some 0)).1 "t1"
        = some { doingTask with status := .todo, updated_at := "now" } ∧
      ∀ u ∈ (⟨[doingTask], [⟨"tm0", "t1", "s", some "e", 3, "manual"⟩]⟩ :
          DBState).tasks, u.id ≠ "t1" →
        u ∈ (repoStopTask
          ⟨[doingTask], [⟨"tm0", "t1", "s", some "e", 3, "manual"⟩]⟩
          "t1" "now" (fun _ _ => some 0)).1.tasks) :=
  ⟨rfl, rfl, by decide,
   c10_stop_task_without_open_timer
     ⟨[doingTask], [⟨"tm0", "t1", "s", some "e", 3, "manual"⟩]⟩
     "t1" "now" (fun _ _ => some 0) doingTask rfl rfl (by decide)⟩

/-- C3 (amended): for every task whose `due_date` is null and whose status
is neither `Doing` nor `Done`, calling the service `start_task` on it
returns the `DUE_DATE_REQUIRED` error and performs no store mutation — the
returned store is exactly the input store, so no timer row is inserted, no
timer is closed, and no task changes.  (A `Doing`/`Done` task with null
`due_date` instead fails the earlier status precondition with
`InvalidStateTransition`, also without mutation.) -/
theorem c3_start_task_null_due_date
    (st : DBState) (tid timerId now : String)
    (pe : String → String → Option Int) (mdOk : Bool) (t : Task)
    (hget : getTask st tid = some t) (hdue : t.due_date = none)
    (hnotdoing : t.status ≠ .doing) (hnotdone : t.status ≠ .done) :
    svcStartTask st tid timerId now pe mdOk
      = (st, .error errDueDateRequired) := by
  unfold svcStartTask
  rw [hget]
  simp [hnotdoing, hnotdone, hdue]

/-- Counterexample to C3 as stated: a `Done` task with `due_date = null`
exists (creation permits it), and `start_task` on it returns
`InvalidStateTransition` ("Cannot start a done task"), not the
`DueDateRequired` error the claim promises for every task with a null due
date. -/
theorem c3_start_task_null_due_date_counterexample :
    getTask ⟨[doneTaskNoDue], []⟩ "t1" = some doneTaskNoDue ∧
    doneTaskNoDue.due_date = none ∧
    svcStartTask ⟨[doneTaskNoDue], []⟩ "t1" "tm1" "now" (fun _ _ => some 0)
      true = (⟨[doneTaskNoDue], []⟩, .error errCannotStartDone) ∧
    errCannotStartDone ≠ errDueDateRequired :=
  ⟨rfl, rfl, rfl, by decide⟩

/-- Witness for the amended C3 at a todo task with a null due date. -/
theorem c3_start_task_null_due_date_witness :
    (getTask ⟨[todoTaskNoDue], []⟩ "t1" = some todoTaskNoDue) ∧
    todoTaskNoDue.due_date = none ∧
    todoTaskNoDue.status ≠ .doing ∧
    todoTaskNoDue.status ≠ .done ∧
    svcStartTask ⟨[todoTaskNoDue], []⟩ "t1" "tm1" "now" (fun _ _ => some 0)
      true = (⟨[todoTaskNoDue], []⟩, .error errDueDateRequired) :=
  ⟨rfl, rfl, by decide, by decide,
   c3_start_task_null_due_date ⟨[todoTaskNoDue], []⟩ "t1" "tm1" "now"
     (fun _ _ => some 0) true todoTaskNoDue rfl rfl (by decide) (by decide)⟩

theorem mirrorFail_update (st : DBState) (input : UpdateTaskInput)
    (now : String) (h : (svcUpdateTask st input now true).2 = .ok ()) :
    svcUpdateTask st input now false
      = ((svcUpdateTask st input now true).1, .error errMirrorWrite) := by
  unfold svcUpdateTask at h ⊢
  cases hg : getTask st input.id with
  | none => rw [hg] at h; simp at h
  | some task =>
    rw [hg] at h
    by_cases h1 : (updNextStatus input task = .todo ∨
        updNextStatus input task = .doing) ∧ updEffectiveDue input task = none
    · simp [h1] at h
    · simp only [if_neg h1] at h ⊢
      by_cases h2 : (updNextStatus input task = .todo ∨
          updNextStatus input task = .doing) ∧ updDueUpdate input = some none
      · simp [h2] at h
      · simp only [if_neg h2] at h ⊢
        by_cases h3 : updBoardBad input = true
        · simp [h3] at h
        · simp only [if_neg h3] at h ⊢
          cases hr : (repoUpdateTask st input.id (updFields input task now)
              now).2 with
          | error e => rw [hr] at h; simp at h
          | ok v => simp

theorem mirrorFail_markdone (st : DBState) (tid now : String)
    (h : (svcMarkTaskDone st tid now true).2 = .ok ()) :
    svcMarkTaskDone st tid now false
      = ((svcMarkTaskDone st tid now true).1, .error errMirrorWrite) := by
  unfold svcMarkTaskDone at h ⊢
  cases hg : getTask st tid with
  | none => rw [hg] at h; simp at h
  | some task =>
    rw [hg] at h
    by_cases hd : task.status = .done
    · simp [hd] at h
    · simp only [if_neg hd] at h ⊢
      cases hr : (repoMarkTaskDone st tid now).2 with
      | error e => rw [hr] at h; simp at h
      | ok v => simp

theorem mirrorFail_reopen (st : DBState) (tid now : String)
    (h : (svcReopenTask st tid now true).2 = .ok ()) :
    svcReopenTask st tid now false
      = ((svcReopenTask st tid now true).1, .error errMirrorWrite) := by
  unfold svcReopenTask at h ⊢
  cases hg : getTask st tid with
  | none => rw [hg] at h; simp at h
  | some task =>
    rw [hg] at h
    by_cases hd : task.status ≠ .done
    · simp [hd] at h
    · simp only [if_neg hd] at h ⊢
      by_cases hdue : task.due_date = none
      · simp [hdue] at h
      · simp only [if_neg hdue] at h ⊢
        cases hr : (repoReopenTask st tid now).2 with
        | error e => rw [hr] at h; simp at h
        | ok v => simp

theorem mirrorFail_start (st : DBState) (tid timerId now : String)
    (pe : String → String → Option Int)
    (h : (svcStartTask st tid timerId now pe true).2 = .ok ()) :
    svcStartTask st tid timerId now pe false
      = ((svcStartTask st tid timerId now pe true).1,
          .error errMirrorWrite) := by
  unfold svcStartTask at h ⊢
  cases hg : getTask st tid with
  | none => rw [hg] at h; simp at h
  | some task =>
    rw [hg] at h
    by_cases hd1 : task.status = .doing
    · simp [hd1] at h
    · simp only [if_neg hd1] at h ⊢
      by_cases hd2 : task.status = .done
      · simp [hd2] at h
      · simp only [if_neg hd2] at h ⊢
        by_cases hdue : task.due_date = none
        · simp [hdue] at h
        · simp only [if_neg hdue] at h ⊢
          cases hr : (repoStartTask st tid timerId now pe).2 with
          | error e => rw [hr] at h; simp at h
          | ok v => simp

theorem mirrorFail_stop (st : DBState) (tid now : String)
    (pe : String → String → Option Int)
    (h : (svcStopTask st tid now pe true).2 = .ok ()) :
    svcStopTask st tid now pe false
      = ((svcStopTask st tid now pe true).1, .error errMirrorWrite) := by
  unfold svcStopTask at h ⊢
  cases hg : getTask st tid with
  | none => rw [hg] at h; simp at h
  | some task =>
    rw [hg] at h
    by_cases hd : task.status ≠ .doing
    · simp [hd] at h
    · simp only [if_neg hd] at h ⊢
      by_cases hdue : task.due_date = none
      · simp [hdue] at h
      · simp only [if_neg hdue] at h ⊢
        cases hr : (repoStopTask st tid now pe).2 with
        | error e => rw [hr] at h; simp at h
        | ok v => simp

/-- C5 (amended): for every lifecycle operation (`update_task`,
`mark_task_done`, `reopen_task`, `start_task`, `stop_task`) whose relational
mutation succeeds, a failure of the Markdown front-matter mirror write does
NOT roll back the relational change — the resulting store is exactly the
store of the successful run — but, contrary to the original claim, the
mirror failure is propagated with `?` and the operation returns the mirror
error instead of `Ok` (only `create_task` and `delete_task` downgrade it to
a log entry). -/
theorem c5_mirror_failure_no_rollback_but_error
    (st : DBState) (input : UpdateTaskInput)
    (tidMd tidRe tidStart tidStop timerId now : String)
    (pe : String → String → Option Int)
    (hup : (svcUpdateTask st input now true).2 = .ok ())
    (hmd : (svcMarkTaskDone st tidMd now true).2 = .ok ())
    (hre : (svcReopenTask st tidRe now true).2 = .ok ())
    (hst : (svcStartTask st tidStart timerId now pe true).2 = .ok ())
    (hsp : (svcStopTask st tidStop now pe true).2 = .ok ()) :
    svcUpdateTask st input now false
      = ((svcUpdateTask st input now true).1, .error errMirrorWrite) ∧
    svcMarkTaskDone st tidMd now false
      = ((svcMarkTaskDone st tidMd now true).1, .error errMirrorWrite) ∧
    svcReopenTask st tidRe now false
      = ((svcReopenTask st tidRe now true).1, .error errMirrorWrite) ∧
    svcStartTask st tidStart timerId now pe false
      = ((svcStartTask st tidStart timerId now pe true).1,
          .error errMirrorWrite) ∧
    svcStopTask st tidStop now pe false
      = ((svcStopTask st tidStop now pe true).1, .error errMirrorWrite) :=
  ⟨mirrorFail_update st input now hup, mirrorFail_markdone st tidMd now hmd,
   mirrorFail_reopen st tidRe now hre,
   mirrorFail_start st tidStart timerId now pe hst,
   mirrorFail_stop st tidStop now pe hsp⟩

/-- Counterexample to C5 as stated: with the mirror write failing,
`mark_task_done` on a plain todo task DOES return an error (the claim says
the operation does not return an error and only logs a warning) — while the
relational store nevertheless keeps the completed row, showing the mutation
was not rolled back. -/
theorem c5_mirror_failure_counterexample :
    (svcMarkTaskDone ⟨[sampleTask], []⟩ "t1" "now" false).2
      = .error errMirrorWrite ∧
    getTask (svcMarkTaskDone ⟨[sampleTask], []⟩ "t1" "now" false).1 "t1"
      = some { sampleTask with
                status := .done
                completed_at := some "now"
                updated_at := "now" } :=
  ⟨rfl, rfl⟩

/-- Witness for the amended C5: in `mixedStore` every one of the five
operations succeeds with a working mirror, and with a failing mirror each
keeps its relational result and returns the mirror error. -/
theorem c5_mirror_failure_no_rollback_but_error_witness :
    ((svcUpdateTask mixedStore { id := "t1" } "now" true).2 = .ok () ∧
     (svcMarkTaskDone mixedStore "t1" "now" true).2 = .ok () ∧
     (svcReopenTask mixedStore "t2" "now" true).2 = .ok () ∧
     (svcStartTask mixedStore "t1" "tm1" "now" (fun _ _ => some 0) true).2
       = .ok () ∧
     (svcStopTask mixedStore "t3" "now" (fun _ _ => some 0) true).2
       = .ok ()) ∧
    (svcUpdateTask mixedStore { id := "t1" } "now" false
      = ((svcUpdateTask mixedStore { id := "t1" } "now" true).1,
          .error errMirrorWrite) ∧
     svcMarkTaskDone mixedStore "t1" "now" false
      = ((svcMarkTaskDone mixedStore "t1" "now" true).1,
          .error errMirrorWrite) ∧
     svcReopenTask mixedStore "t2" "now" false
      = ((svcReopenTask mixedStore "t2" "now" true).1,
          .error errMirrorWrite) ∧
     svcStartTask mixedStore "t1" "tm1" "now" (fun _ _ => some 0) false
      = ((svcStartTask mixedStore "t1" "tm1" "now" (fun _ _ => some 0)
            true).1, .error errMirrorWrite) ∧
     svcStopTask mixedStore "t3" "now" (fun _ _ => some 0) false
      = ((svcStopTask mixedStore "t3" "now" (fun _ _ => some 0) true).1,
          .error errMirrorWrite)) :=
  ⟨⟨rfl, rfl, rfl, rfl, rfl⟩,
   c5_mirror_failure_no_rollback_but_error mixedStore { id := "t1" }
     "t1" "t2" "t1" "t3" "tm1" "now" (fun _ _ => some 0)
     rfl rfl rfl rfl rfl⟩

theorem closeAllOpenTimers_ok (pe : String → String → Option Int)
    (now : String) (l : List Timer)
    (hpe : ∀ tm ∈ l, tm.stop_at = none → pe tm.start_at now ≠ none) :
    (closeAllOpenTimers pe now l).2 = .ok () := by
  induction l with
  | nil => rfl
  | cons tm rest ih =>
    unfold closeAllOpenTimers
    by_cases hopen : tm.stop_at = none
    · rw [if_pos hopen]
      cases hp : pe tm.start_at now with
      | none => exact absurd hp (hpe tm (List.mem_cons_self tm rest) hopen)
      | some dur =>
        exact ih (fun tm' h' => hpe tm' (List.mem_cons_of_mem tm h'))
    · rw [if_neg hopen]
      exact ih (fun tm' h' => hpe tm' (List.mem_cons_of_mem tm h'))

theorem stopAllActiveTimers_ok (st : DBState) (now : String)
    (pe : String → String → Option Int)
    (hpe : ∀ tm ∈ st.timers, tm.stop_at = none → pe tm.start_at now ≠ none) :
    stopAllActiveTimers st now pe
      = (⟨st.tasks.map (fun t =>
            if t.status = .doing then { t with status := .todo, updated_at := now }
            else t),
          (closeAllOpenTimers pe now st.timers).1⟩, .ok ()) := by
  unfold stopAllActiveTimers
  simp only [closeAllOpenTimers_ok pe now st.timers hpe]

theorem repoStartTask_ok (st : DBState) (tid timerId now : String)
    (pe : String → String → Option Int)
    (hpe : ∀ tm ∈ st.timers, tm.stop_at = none → pe tm.start_at now ≠ none) :
    repoStartTask st tid timerId now pe
      = (⟨(st.tasks.map (fun t =>
            if t.status = .doing then { t with status := .todo, updated_at := now }
            else t)).map (fun t =>
            if t.id = tid then { t with status := .doing, updated_at := now }
            else t),
          (closeAllOpenTimers pe now st.timers).1 ++
            [⟨timerId, tid, now, none, 0, "manual"⟩]⟩, .ok ()) := by
  unfold repoStartTask
  rw [stopAllActiveTimers_ok st now pe hpe]

theorem find?_id_congr_map (l : List Task) (tid : String) (f : Task → Task)
    (hf : ∀ u, (f u).id = u.id) :
    (l.map f).find? (fun u => decide (u.id = tid))
      = (l.find? (fun u => decide (u.id = tid))).map f := by
  induction l with
  | nil => rfl
  | cons x xs ih =>
    by_cases hx : x.id = tid
    · simp [List.find?_cons, hx, hf x]
    · simp only [List.map_cons]
      rw [List.find?_cons_of_neg _ (by simp [hf x, hx]),
        List.find?_cons_of_neg _ (by simp [hx])]
      exact ih

/-- C9: for every successful `start_task(t)` (task exists with a unique id,
is neither `Doing` nor `Done`, has a due date, and the open timers parse),
every other task that was `Doing` beforehand has status `Todo` afterwards,
the started task itself reads back as `Doing`, and exactly one task row has
status `Doing` in the resulting store. -/
theorem c9_start_task_demotes_other_doing
    (st : DBState) (tid timerId now : String)
    (pe : String → String → Option Int) (mdOk : Bool) (t : Task)
    (hget : getTask st tid = some t) (hnotdoing : t.status ≠ .doing)
    (hnotdone : t.status ≠ .done) (hdue : t.due_date ≠ none)
    (hpe : ∀ tm ∈ st.timers, tm.stop_at = none → pe tm.start_at now ≠ none)
    (hcount : st.tasks.countP (fun u => decide (u.id = tid)) = 1) :
    (∀ u ∈ st.tasks, u.status = .doing → u.id ≠ tid →
      { u with status := .todo, updated_at := now }
        ∈ (svcStartTask st tid timerId now pe mdOk).1.tasks) ∧
    getTask (svcStartTask st tid timerId now pe mdOk).1 tid
      = some { t with status := .doing, updated_at := now } ∧
    (svcStartTask st tid timerId now pe mdOk).1.tasks.countP
      (fun u => decide (u.status = .doing)) = 1 := by
  have htid : t.id = tid := by
    have := List.find?_some hget
    simpa using this
  have hstate : (svcStartTask st tid timerId now pe mdOk).1
      = ⟨(st.tasks.map (fun u =>
            if u.status = .doing then { u with status := .todo, updated_at := now }
            else u)).map (fun u =>
            if u.id = tid then { u with status := .doing, updated_at := now }
            else u),
          (closeAllOpenTimers pe now st.timers).1 ++
            [⟨timerId, tid, now, none, 0, "manual"⟩]⟩ := by
    unfold svcStartTask
    rw [hget]
    simp only [if_neg hnotdoing, if_neg hnotdone, if_neg hdue]
    rw [repoStartTask_ok st tid timerId now pe hpe]
    cases mdOk <;> rfl
  rw [hstate]
  rw [List.map_map]
  refine ⟨?_, ?_, ?_⟩
  · intro u hu hdoing hune
    refine List.mem_map.mpr ⟨u, hu, ?_⟩
    simp [Function.comp_apply, hdoing, hune]
  · have hcongr := find?_id_congr_map st.tasks tid
      ((fun u => if u.id = tid then { u with status := .doing, updated_at := now }
          else u) ∘ (fun u =>
            if u.status = .doing then { u with status := .todo, updated_at := now }
            else u))
      (by
        intro u
        by_cases h1 : u.status = .doing <;>
          by_cases h2 : u.id = tid <;>
            simp [Function.comp_apply, h1, h2])
    unfold getTask at hget ⊢
    rw [hcongr, hget]
    simp [Function.comp_apply, hnotdoing, htid]
  · rw [List.countP_map]
    have hcg : ∀ x ∈ st.tasks,
        ((fun u => decide (u.status = TaskStatus.doing)) ∘
          ((fun u => if u.id = tid then
              { u with status := .doing, updated_at := now } else u) ∘
            (fun u => if u.status = .doing then
              { u with status := .todo, updated_at := now } else u))) x = true
          ↔ (fun u => decide (u.id = tid)) x = true := by
      intro x _
      by_cases h1 : x.status = .doing <;> by_cases h2 : x.id = tid <;>
        simp [Function.comp_apply, h1, h2]
    rw [List.countP_congr hcg]
    exact hcount

/-- Witness for C9: starting the todo task of `mixedStore` (which holds a
doing task `t3`) leaves exactly one doing task. -/
theorem c9_start_task_demotes_other_doing_witness :
    (getTask mixedStore "t1" = some sampleTask) ∧
    sampleTask.status ≠ .doing ∧ sampleTask.status ≠ .done ∧
    sampleTask.due_date ≠ none ∧
    mixedStore.tasks.countP (fun u => decide (u.id = "t1")) = 1 ∧
    ((∀ u ∈ mixedStore.tasks, u.status = .doing → u.id ≠ "t1" →
        { u with status := .todo, updated_at := "now" }
          ∈ (svcStartTask mixedStore "t1" "tm1" "now" (fun _ _ => some 0)
              true).1.tasks) ∧
      getTask (svcStartTask mixedStore "t1" "tm1" "now" (fun _ _ => some 0)
          true).1 "t1"
        = some { sampleTask with status := .doing, updated_at := "now" } ∧
      (svcStartTask mixedStore "t1" "tm1" "now" (fun _ _ => some 0)
          true).1.tasks.countP (fun u => decide (u.status = .doing)) = 1) :=
  ⟨rfl, by decide, by decide, by decide, by decide,
   c9_start_task_demotes_other_doing mixedStore "t1" "tm1" "now"
     (fun _ _ => some 0) true sampleTask rfl (by decide) (by decide)
     (by decide) (by intro tm htm; cases htm) (by decide)⟩

theorem closeAll_open_le (pe : String → String → Option Int) (now : String)
    (l : List Timer) :
    (closeAllOpenTimers pe now l).1.countP (fun tm => tm.stop_at.isNone)
      ≤ l.countP (fun tm => tm.stop_at.isNone) := by
  induction l with
  | nil => simp [closeAllOpenTimers]
  | cons tm rest ih =>
    unfold closeAllOpenTimers
    by_cases hopen : tm.stop_at = none
    · rw [if_pos hopen]
      cases hp : pe tm.start_at now with
      | none => simp
      | some dur =>
        have h := ih
        simp [List.countP_cons, hopen]
        omega
    · rw [if_neg hopen]
      have h := ih
      simp [List.countP_cons]
      omega

theorem closeAll_open_zero (pe : String → String → Option Int)
    (now : String) (l : List Timer)
    (hok : (closeAllOpenTimers pe now l).2 = .ok ()) :
    (closeAllOpenTimers pe now l).1.countP (fun tm => tm.stop_at.isNone)
      = 0 := by
  induction l with
  | nil => rfl
  | cons tm rest ih =>
    unfold closeAllOpenTimers at hok ⊢
    by_cases hopen : tm.stop_at = none
    · rw [if_pos hopen] at hok ⊢
      cases hp : pe tm.start_at now with
      | none => rw [hp] at hok; simp at hok
      | some dur =>
        rw [hp] at hok
        have hok2 : (closeAllOpenTimers pe now rest).2 = .ok () := hok
        simp [List.countP_cons, ih hok2]
    · rw [if_neg hopen] at hok ⊢
      have hok2 : (closeAllOpenTimers pe now rest).2 = .ok () := hok
      have hno : tm.stop_at.isNone = false := by
        cases h : tm.stop_at with
        | none => exact absurd h hopen
        | some v => rfl
      simp [List.countP_cons, hno, ih hok2]

theorem closeAll_mem_closed (pe : String → String → Option Int)
    (now : String) (l : List Timer)
    (hok : (closeAllOpenTimers pe now l).2 = .ok ()) :
    ∀ tm ∈ l, tm.stop_at = none →
      ∃ d, pe tm.start_at now = some d ∧
        { tm with stop_at := some now, duration_sec := d }
          ∈ (closeAllOpenTimers pe now l).1 := by
  induction l with
  | nil => intro tm h; cases h
  | cons x rest ih =>
    intro tm hmem hopen
    unfold closeAllOpenTimers at hok ⊢
    by_cases hx : x.stop_at = none
    · rw [if_pos hx] at hok ⊢
      cases hp : pe x.start_at now with
      | none => rw [hp] at hok; simp at hok
      | some dur =>
        rw [hp] at hok
        have hok2 : (closeAllOpenTimers pe now rest).2 = .ok () := hok
        rcases List.mem_cons.mp hmem with h | h
        · subst h
          exact ⟨dur, hp, List.mem_cons_self _ _⟩
        · obtain ⟨d, hd, hmem'⟩ := ih hok2 tm h hopen
          exact ⟨d, hd, List.mem_cons_of_mem _ hmem'⟩
    · rw [if_neg hx] at hok ⊢
      have hok2 : (closeAllOpenTimers pe now rest).2 = .ok () := hok
      rcases List.mem_cons.mp hmem with h | h
      · subst h; exact absurd hopen hx
      · obtain ⟨d, hd, hmem'⟩ := ih hok2 tm h hopen
        exact ⟨d, hd, List.mem_cons_of_mem _ hmem'⟩

theorem timers_repoCreateTask (st : DBState) (id now title : String)
    (description : Option String) (status : TaskStatus)
    (priority : Option TaskPriority) (due_date board_id : Option String)
    (estimate_min : Option Int) (tags : Option (List String))
    (subtasks : Option (List Subtask)) (periodicity : Option TaskPeriodicity)
    (scheduled_start scheduled_end note_path completed_at task_dir_slug
      md_rel_path : Option String) :
    (repoCreateTask st id now title description status priority due_date
      board_id estimate_min tags subtasks periodicity scheduled_start
      scheduled_end note_path completed_at task_dir_slug
      md_rel_path).1.timers = st.timers := by
  unfold repoCreateTask
  split
  · rfl
  · dsimp only
    split <;> rfl

theorem timers_repoUpdateTask (st : DBState) (tid : String)
    (f : UpdateFields) (now : String) :
    (repoUpdateTask st tid f now).1.timers = st.timers := by
  unfold repoUpdateTask
  split
  · rfl
  · dsimp only
    split <;> rfl

theorem timers_repoMarkTaskDone (st : DBState) (tid now : String) :
    (repoMarkTaskDone st tid now).1.timers = st.timers := by
  unfold repoMarkTaskDone
  dsimp only
  split <;> rfl

theorem timers_repoReopenTask (st : DBState) (tid now : String) :
    (repoReopenTask st tid now).1.timers = st.timers := by
  unfold repoReopenTask
  dsimp only
  split <;> rfl

theorem timers_repoReorderTasks (inputs : List ReorderTaskInput)
    (st : DBState) (now : String) :
    (repoReorderTasks st inputs now).timers = st.timers := by
  induction inputs generalizing st with
  | nil => rfl
  | cons i rest ih =>
    simp only [repoReorderTasks, List.foldl_cons]
    exact ih _

theorem open_le_repoStopTask (st : DBState) (tid now : String)
    (pe : String → String → Option Int) :
    openTimerCount (repoStopTask st tid now pe).1 ≤ openTimerCount st := by
  unfold repoStopTask openTimerCount
  cases hf : findOpenTimer st.timers tid with
  | none => simp
  | some tm =>
    dsimp only
    cases hp : pe tm.start_at now with
    | none => exact le_rfl
    | some dur =>
      dsimp only
      rw [List.countP_map]
      apply List.countP_mono_left
      intro a _
      by_cases hid : a.id = tm.id
      · simp [hid]
      · simp [hid]

theorem open_le_repoDeleteTask (st : DBState) (tid : String) :
    openTimerCount (repoDeleteTask st tid).1 ≤ openTimerCount st := by
  unfold repoDeleteTask openTimerCount
  cases hf : getTask st tid with
  | none => simp
  | some t =>
    simp only []
    exact (List.filter_sublist _).countP_le _

/-- C1: in every store state reachable through this component's operations,
at most one `task_timer` row has `stop_at = null`; and every successful
`start_task(id)` first closes (sets `stop_at` and `duration_sec` on) every
currently open timer row before inserting the one new open timer row for
`id` — afterwards exactly one open row exists, namely the new one. -/
theorem c1_single_active_timer :
    (∀ st, ReachableRepo st → openTimerCount st ≤ 1) ∧
    (∀ (st : DBState) (tid timerId now : String)
      (pe : String → String → Option Int),
      (∀ tm ∈ st.timers, tm.stop_at = none → pe tm.start_at now ≠ none) →
      (repoStartTask st tid timerId now pe).2 = .ok () ∧
      openTimerCount (repoStartTask st tid timerId now pe).1 = 1 ∧
      (⟨timerId, tid, now, none, 0, "manual"⟩ : Timer)
        ∈ (repoStartTask st tid timerId now pe).1.timers ∧
      ∀ tm ∈ st.timers, tm.stop_at = none →
        ∃ d, pe tm.start_at now = some d ∧
          { tm with stop_at := some now, duration_sec := d }
            ∈ (repoStartTask st tid timerId now pe).1.timers) := by
  constructor
  · intro st h
    induction h with
    | init => decide
    | create st id now title description status priority due_date board_id
        estimate_min tags subtasks periodicity scheduled_start scheduled_end
        note_path completed_at task_dir_slug md_rel_path h ih =>
      unfold openTimerCount
      rw [timers_repoCreateTask]
      exact ih
    | update st tid f now h ih =>
      unfold openTimerCount
      rw [timers_repoUpdateTask]
      exact ih
    | markDone st tid now h ih =>
      unfold openTimerCount
      rw [timers_repoMarkTaskDone]
      exact ih
    | reopen st tid now h ih =>
      unfold openTimerCount
      rw [timers_repoReopenTask]
      exact ih
    | start st tid timerId now pe h ih =>
      unfold repoStartTask stopAllActiveTimers
      cases hok : (closeAllOpenTimers pe now st.timers).2 with
      | error e =>
        simp only [hok]
        unfold openTimerCount at ih ⊢
        calc (closeAllOpenTimers pe now st.timers).1.countP
              (fun tm => tm.stop_at.isNone)
            ≤ st.timers.countP (fun tm => tm.stop_at.isNone) :=
              closeAll_open_le pe now st.timers
          _ ≤ 1 := ih
      | ok v =>
        simp only [hok]
        unfold openTimerCount
        simp only [List.countP_append, List.countP_cons, List.countP_nil]
        rw [closeAll_open_zero pe now st.timers hok]
        simp
    | stop st tid now pe h ih =>
      exact le_trans (open_le_repoStopTask st tid now pe) ih
    | reorder st inputs now h ih =>
      unfold openTimerCount
      rw [timers_repoReorderTasks]
      exact ih
    | delete st tid h ih =>
      exact le_trans (open_le_repoDeleteTask st tid) ih
    | notePath st tid path now h ih => exact ih
    | pathInfo st tid slug rel now h ih => exact ih
  · intro st tid timerId now pe hpe
    have hok : (closeAllOpenTimers pe now st.timers).2 = .ok () :=
      closeAllOpenTimers_ok pe now st.timers hpe
    rw [repoStartTask_ok st tid timerId now pe hpe]
    refine ⟨rfl, ?_, ?_, ?_⟩
    · unfold openTimerCount
      simp only [List.countP_append, List.countP_cons, List.countP_nil]
      rw [closeAll_open_zero pe now st.timers hok]
      simp
    · exact List.mem_append_right _ (List.mem_singleton.mpr rfl)
    · intro tm hmem hopen
      obtain ⟨d, hd, hmem'⟩ := closeAll_mem_closed pe now st.timers hok tm
        hmem hopen
      exact ⟨d, hd, List.mem_append_left _ hmem'⟩

/-- Witness for C1: a state reached by create-then-start satisfies the
invariant, and a concrete `start_task` over a store with an open timer
closes it and leaves exactly the new open row. -/
theorem c1_single_active_timer_witness :
    openTimerCount (repoStartTask (repoCreateTask DBState.empty "t1" "now"
      "A" none .todo none none none none none none none none none none none
      none none).1 "t1" "tm1" "now" (fun _ _ => some 0)).1 ≤ 1 ∧
    ((repoStartTask twoTimerStore "t1" "tm2" "now2"
        (fun _ _ => some 7)).2 = .ok () ∧
      openTimerCount (repoStartTask twoTimerStore "t1" "tm2" "now2"
        (fun _ _ => some 7)).1 = 1 ∧
      (⟨"tm2", "t1", "now2", none, 0, "manual"⟩ : Timer)
        ∈ (repoStartTask twoTimerStore "t1" "tm2" "now2"
            (fun _ _ => some 7)).1.timers ∧
      ∀ tm ∈ twoTimerStore.timers, tm.stop_at = none →
        ∃ d, (fun _ _ => some 7) tm.start_at "now2" = some d ∧
          { tm with stop_at := some "now2", duration_sec := d }
            ∈ (repoStartTask twoTimerStore "t1" "tm2" "now2"
                (fun _ _ => some 7)).1.timers) :=
  ⟨c1_single_active_timer.1 _
    (ReachableRepo.start _ "t1" "tm1" "now" (fun _ _ => some 0)
      (ReachableRepo.create DBState.empty "t1" "now" "A" none .todo none none
        none none none none none none none none none none none
        ReachableRepo.init)),
   c1_single_active_timer.2 twoTimerStore "t1" "tm2" "now2"
     (fun _ _ => some 7) (by decide)⟩

theorem eq_of_getTask_of_mem (st : DBState) (tid : String) (t u : Task)
    (hUniq : UniqueIds st) (hget : getTask st tid = some t)
    (hu : u ∈ st.tasks) (hid : u.id = tid) : u = t := by
  have ht : t ∈ st.tasks := List.mem_of_find?_eq_some hget
  have htid : t.id = tid := by simpa using List.find?_some hget
  exact List.inj_on_of_nodup_map hUniq hu ht (by rw [hid, htid])

theorem tasks_repoMarkTaskDone (st : DBState) (tid now : String) :
    (repoMarkTaskDone st tid now).1.tasks
      = st.tasks.map (fun t => if t.id = tid then
          { t with status := .done, completed_at := some now, updated_at := now }
          else t) := by
  unfold repoMarkTaskDone
  dsimp only
  split <;> rfl

theorem tasks_repoReopenTask (st : DBState) (tid now : String) :
    (repoReopenTask st tid now).1.tasks
      = st.tasks.map (fun t => if t.id = tid then
          { t with status := .todo, completed_at := none, updated_at := now }
          else t) := by
  unfold repoReopenTask
  dsimp only
  split <;> rfl

theorem tasks_repoUpdateTask (st : DBState) (tid : String) (f : UpdateFields)
    (now : String) :
    (repoUpdateTask st tid f now).1.tasks
      = match getTask st tid with
        | none => st.tasks
        | some cur => st.tasks.map (fun t => if t.id = tid then
            writeUpdatedColumns t (mergeTask st.tasks cur f now) else t) := by
  unfold repoUpdateTask
  cases getTask st tid with
  | none => rfl
  | some cur =>
    dsimp only
    split <;> rfl

theorem tasks_stopAllActiveTimers (st : DBState) (now : String)
    (pe : String → String → Option Int) :
    (stopAllActiveTimers st now pe).1.tasks
      = match (closeAllOpenTimers pe now st.timers).2 with
        | .error _ => st.tasks
        | .ok _ => st.tasks.map (fun t => if t.status = .doing then
            { t with status := .todo, updated_at := now } else t) := by
  unfold stopAllActiveTimers
  dsimp only
  cases (closeAllOpenTimers pe now st.timers).2 <;> rfl

theorem tasks_repoStartTask (st : DBState) (tid timerId now : String)
    (pe : String → String → Option Int) :
    (repoStartTask st tid timerId now pe).1.tasks
      = match (closeAllOpenTimers pe now st.timers).2 with
        | .error _ => st.tasks
        | .ok _ => (st.tasks.map (fun t => if t.status = .doing then
            { t with status := .todo, updated_at := now } else t)).map
            (fun t => if t.id = tid then
              { t with status := .doing, updated_at := now } else t) := by
  unfold repoStartTask stopAllActiveTimers
  dsimp only
  cases (closeAllOpenTimers pe now st.timers).2 <;> rfl

theorem tasks_repoStopTask (st : DBState) (tid now : String)
    (pe : String → String → Option Int) :
    (repoStopTask st tid now pe).1.tasks = st.tasks ∨
    (repoStopTask st tid now pe).1.tasks
      = st.tasks.map (fun t => if t.id = tid then
          { t with status := .todo, updated_at := now } else t) := by
  unfold repoStopTask
  dsimp only
  cases findOpenTimer st.timers tid with
  | none => right; rfl
  | some tm =>
    dsimp only
    cases pe tm.start_at now with
    | none => left; rfl
    | some dur => right; rfl

theorem ciod_repoMarkTaskDone (st : DBState) (tid now : String)
    (hInv : CompletedIffDone st) :
    CompletedIffDone (repoMarkTaskDone st tid now).1 := by
  intro t ht
  rw [tasks_repoMarkTaskDone] at ht
  obtain ⟨u, hu, rfl⟩ := List.mem_map.mp ht
  by_cases hid : u.id = tid
  · simp [TaskCompOk, hid]
  · simpa [hid] using hInv u hu

theorem ciod_repoReopenTask (st : DBState) (tid now : String)
    (hInv : CompletedIffDone st) :
    CompletedIffDone (repoReopenTask st tid now).1 := by
  intro t ht
  rw [tasks_repoReopenTask] at ht
  obtain ⟨u, hu, rfl⟩ := List.mem_map.mp ht
  by_cases hid : u.id = tid
  · simp [TaskCompOk, hid]
  · simpa [hid] using hInv u hu

theorem taskCompOk_merge_svc (tasks : List Task) (task : Task)
    (input : UpdateTaskInput) (now : String) (ht : TaskCompOk task) :
    TaskCompOk (mergeTask tasks task (updFields input task now) now) := by
  have hs : (mergeTask tasks task (updFields input task now) now).status
      = updNextStatus input task := rfl
  have hc : (mergeTask tasks task (updFields input task now) now).completed_at
      = (updCompletedUpdate task (updNextStatus input task) now).getD
          task.completed_at := rfl
  unfold TaskCompOk
  rw [hs, hc]
  unfold updCompletedUpdate
  by_cases h1 : task.status = .done ∧ updNextStatus input task ≠ .done
  · simp [h1, h1.2]
  · rw [if_neg h1]
    by_cases h2 : task.status ≠ .done ∧ updNextStatus input task = .done
    · simp [h2, h2.2]
    · rw [if_neg h2]
      simp only [Option.getD_none]
      by_cases hd : task.status = .done
      · have hns : updNextStatus input task = .done := by tauto
        rw [hns]
        simp only [iff_true]
        exact ht.mpr hd
      · have hns : updNextStatus input task ≠ .done := by tauto
        unfold TaskCompOk at ht
        constructor
        · intro hsome
          exact absurd (ht.mp hsome) hd
        · intro h
          exact absurd h hns

theorem ciod_svcUpdateTask (st : DBState) (input : UpdateTaskInput)
    (now : String) (mdOk : Bool) (hInv : CompletedIffDone st) :
    CompletedIffDone (svcUpdateTask st input now mdOk).1 := by
  unfold svcUpdateTask
  cases hg : getTask st input.id with
  | none => exact hInv
  | some task =>
    have hrepo : CompletedIffDone (repoUpdateTask st input.id
        (updFields input task now) now).1 := by
      intro t ht
      rw [tasks_repoUpdateTask, hg] at ht
      obtain ⟨u, hu, rfl⟩ := List.mem_map.mp ht
      by_cases hid : u.id = input.id
      · rw [if_pos hid]
        have hm := taskCompOk_merge_svc st.tasks task input now
          (hInv task (List.mem_of_find?_eq_some hg))
        unfold TaskCompOk at hm ⊢
        exact hm
      · rw [if_neg hid]
        exact hInv u hu
    by_cases h1 : (updNextStatus input task = .todo ∨
        updNextStatus input task = .doing) ∧ updEffectiveDue input task = none
    · simp only [if_pos h1]; exact hInv
    · simp only [if_neg h1]
      by_cases h2 : (updNextStatus input task = .todo ∨
          updNextStatus input task = .doing) ∧ updDueUpdate input = some none
      · simp only [if_pos h2]; exact hInv
      · simp only [if_neg h2]
        by_cases h3 : updBoardBad input = true
        · simp only [if_pos h3]; exact hInv
        · simp only [if_neg h3]
          try dsimp only
          cases hr : (repoUpdateTask st input.id (updFields input task now)
              now).2 with
          | error e => exact hrepo
          | ok v => cases mdOk <;> exact hrepo

theorem ciod_svcMarkTaskDone (st : DBState) (tid now : String) (mdOk : Bool)
    (hInv : CompletedIffDone st) :
    CompletedIffDone (svcMarkTaskDone st tid now mdOk).1 := by
  unfold svcMarkTaskDone
  cases hg : getTask st tid with
  | none => exact hInv
  | some task =>
    by_cases hd : task.status = .done
    · simp only [if_pos hd]; exact hInv
    · simp only [if_neg hd]
      try dsimp only
      cases hr : (repoMarkTaskDone st tid now).2 with
      | error e => exact ciod_repoMarkTaskDone st tid now hInv
      | ok v => cases mdOk <;> exact ciod_repoMarkTaskDone st tid now hInv

theorem ciod_svcReopenTask (st : DBState) (tid now : String) (mdOk : Bool)
    (hInv : CompletedIffDone st) :
    CompletedIffDone (svcReopenTask st tid now mdOk).1 := by
  unfold svcReopenTask
  cases hg : getTask st tid with
  | none => exact hInv
  | some task =>
    by_cases hd : task.status ≠ .done
    · simp only [if_pos hd]; exact hInv
    · simp only [if_neg hd]
      by_cases hdue : task.due_date = none
      · simp only [if_pos hdue]; exact hInv
      · simp only [if_neg hdue]
        try dsimp only
        cases hr : (repoReopenTask st tid now).2 with
        | error e => exact ciod_repoReopenTask st tid now hInv
        | ok v => cases mdOk <;> exact ciod_repoReopenTask st tid now hInv

theorem ciod_svcStartTask (st : DBState) (tid timerId now : String)
    (pe : String → String → Option Int) (mdOk : Bool)
    (hInv : CompletedIffDone st) (hUniq : UniqueIds st) :
    CompletedIffDone (svcStartTask st tid timerId now pe mdOk).1 := by
  unfold svcStartTask
  cases hg : getTask st tid with
  | none => exact hInv
  | some task =>
    by_cases h1 : task.status = .doing
    · simp only [if_pos h1]; exact hInv
    · simp only [if_neg h1]
      by_cases h2 : task.status = .done
      · simp only [if_pos h2]; exact hInv
      · simp only [if_neg h2]
        by_cases h3 : task.due_date = none
        · simp only [if_pos h3]; exact hInv
        · simp only [if_neg h3]
          have htid : task.id = tid := by simpa using List.find?_some hg
          have hrepo : CompletedIffDone
              (repoStartTask st tid timerId now pe).1 := by
            intro t ht
            rw [tasks_repoStartTask] at ht
            cases hc : (closeAllOpenTimers pe now st.timers).2 with
            | error e => rw [hc] at ht; exact hInv t ht
            | ok v =>
              rw [hc] at ht
              rw [List.map_map] at ht
              obtain ⟨u, hu, rfl⟩ := List.mem_map.mp ht
              by_cases hid : u.id = tid
              · have hu_eq : u = task :=
                  eq_of_getTask_of_mem st tid task u hUniq hg hu hid
                subst hu_eq
                have hnone : u.completed_at = none := by
                  cases hcu : u.completed_at with
                  | none => rfl
                  | some x =>
                    exact absurd ((hInv u hu).mp (by simp [hcu])) h2
                simp [TaskCompOk, Function.comp_apply, h1, hid, hnone]
              · by_cases hdoing2 : u.status = .doing
                · have hnone : u.completed_at = none := by
                    cases hcu : u.completed_at with
                    | none => rfl
                    | some x =>
                      have := (hInv u hu).mp (by simp [hcu])
                      rw [hdoing2] at this
                      cases this
                  simp [TaskCompOk, Function.comp_apply, hdoing2, hid, hnone]
                · have := hInv u hu
                  simpa [TaskCompOk, Function.comp_apply, hdoing2, hid]
                    using this
          try dsimp only
          cases hr : (repoStartTask st tid timerId now pe).2 with
          | error e => exact hrepo
          | ok v => cases mdOk <;> exact hrepo

theorem ciod_svcStopTask (st : DBState) (tid now : String)
    (pe : String → String → Option Int) (mdOk : Bool)
    (hInv : CompletedIffDone st) (hUniq : UniqueIds st) :
    CompletedIffDone (svcStopTask st tid now pe mdOk).1 := by
  unfold svcStopTask
  cases hg : getTask st tid with
  | none => exact hInv
  | some task =>
    by_cases h1 : task.status ≠ .doing
    · simp only [if_pos h1]; exact hInv
    · simp only [if_neg h1]
      by_cases h2 : task.due_date = none
      · simp only [if_pos h2]; exact hInv
      · simp only [if_neg h2]
        have hdoing : task.status = .doing := not_not.mp h1
        have hrepo : CompletedIffDone (repoStopTask st tid now pe).1 := by
          intro t ht
          rcases tasks_repoStopTask st tid now pe with h | h
          · rw [h] at ht; exact hInv t ht
          · rw [h] at ht
            obtain ⟨u, hu, rfl⟩ := List.mem_map.mp ht
            by_cases hid : u.id = tid
            · have hu_eq : u = task :=
                eq_of_getTask_of_mem st tid task u hUniq hg hu hid
              subst hu_eq
              have hnone : u.completed_at = none := by
                cases hcu : u.completed_at with
                | none => rfl
                | some x =>
                  have := (hInv u hu).mp (by simp [hcu])
                  rw [hdoing] at this
                  cases this
              simp [TaskCompOk, hid, hnone]
            · simpa [hid] using hInv u hu
        try dsimp only
        cases hr : (repoStopTask st tid now pe).2 with
        | error e => exact hrepo
        | ok v => cases mdOk <;> exact hrepo

theorem ciod_repoCreateTask (st : DBState) (id now title : String)
    (description : Option String) (status : TaskStatus)
    (priority : Option TaskPriority) (due_date board_id : Option String)
    (estimate_min : Option Int) (tags : Option (List String))
    (subtasks : Option (List Subtask)) (periodicity : Option TaskPeriodicity)
    (scheduled_start scheduled_end note_path completed_at task_dir_slug
      md_rel_path : Option String) (hInv : CompletedIffDone st)
    (hcomp : completed_at.isSome = true ↔ status = .done) :
    CompletedIffDone (repoCreateTask st id now title description status
      priority due_date board_id estimate_min tags subtasks periodicity
      scheduled_start scheduled_end note_path completed_at task_dir_slug
      md_rel_path).1 := by
  unfold repoCreateTask
  split
  · exact hInv
  · dsimp only
    have hst' : CompletedIffDone
        ⟨st.tasks ++ [newTaskRow st id now title description status priority
          due_date board_id estimate_min tags subtasks periodicity
          scheduled_start scheduled_end note_path completed_at task_dir_slug
          md_rel_path], st.timers⟩ := by
      intro t ht
      rcases List.mem_append.mp ht with h | h
      · exact hInv t h
      · have heq := List.mem_singleton.mp h
        subst heq
        simpa [TaskCompOk, newTaskRow] using hcomp
    split <;> exact hst'

theorem ciod_repoUpdateTaskPathInfo (st : DBState) (tid slug rel now : String)
    (hInv : CompletedIffDone st) :
    CompletedIffDone (repoUpdateTaskPathInfo st tid slug rel now) := by
  intro t ht
  simp only [repoUpdateTaskPathInfo] at ht
  obtain ⟨u, hu, rfl⟩ := List.mem_map.mp ht
  by_cases hid : u.id = tid
  · simpa [TaskCompOk, hid] using hInv u hu
  · simpa [hid] using hInv u hu

theorem ciod_repoUpdateTaskNotePath (st : DBState) (tid path now : String)
    (hInv : CompletedIffDone st) :
    CompletedIffDone (repoUpdateTaskNotePath st tid path now) := by
  intro t ht
  simp only [repoUpdateTaskNotePath] at ht
  obtain ⟨u, hu, rfl⟩ := List.mem_map.mp ht
  by_cases hid : u.id = tid
  · simpa [TaskCompOk, hid] using hInv u hu
  · simpa [hid] using hInv u hu

theorem ciod_svcCreateTask (st : DBState) (input : CreateTaskInput)
    (dirExists : String → Bool) (id now : String) (mdOk : Bool)
    (hInv : CompletedIffDone st) :
    CompletedIffDone (svcCreateTask st input dirExists id now mdOk).db := by
  unfold svcCreateTask
  by_cases hval : (input.status = .todo ∨ input.status = .doing) ∧
      trimFilter input.due_date = none
  · simp only [if_pos hval]; exact hInv
  · simp only [if_neg hval]
    try dsimp only
    have hrepo := ciod_repoCreateTask st id now input.title input.description
      input.status input.priority (trimFilter input.due_date)
      (trimFilter input.board_id) input.estimate_min
      (match input.labels with | some l => some l | none => input.tags)
      input.subtasks input.periodicity input.scheduled_start
      input.scheduled_end input.note_path
      (if input.status = .done then some now else none)
      (some (resolveSlug dirExists (generateSlug input.title))) none hInv
      (by cases hs : input.status <;> simp [hs])
    split
    · exact hrepo
    · split
      · split
        · exact ciod_repoUpdateTaskNotePath _ _ _ _
            (ciod_repoUpdateTaskPathInfo _ _ _ _ _ hrepo)
        · exact ciod_repoUpdateTaskPathInfo _ _ _ _ _ hrepo
      · exact hrepo

theorem ciod_svcDeleteTask (st : DBState) (tid : String)
    (hInv : CompletedIffDone st) :
    CompletedIffDone (svcDeleteTask st tid).1 := by
  unfold svcDeleteTask
  cases hg : getTask st tid with
  | none => exact hInv
  | some t =>
    have hrepo : CompletedIffDone (repoDeleteTask st tid).1 := by
      unfold repoDeleteTask
      rw [hg]
      dsimp only
      intro u hu
      exact hInv u (List.mem_of_mem_filter hu)
    try dsimp only
    cases hr : (repoDeleteTask st tid).2 with
    | error e => exact hrepo
    | ok v => exact hrepo

/-- C2 (amended): the invariant "`completed_at` is non-null iff `status` is
`Done`" is preserved by every state-changing service operation EXCEPT
`reorder_tasks`: create, update, mark-done, reopen, start, stop and delete
all keep it (given primary-key-unique ids); `reorder_tasks` can break it
because its status writes never touch `completed_at` (see the
counterexample). -/
theorem c2_completed_iff_done
    (st : DBState) (input : CreateTaskInput) (uinput : UpdateTaskInput)
    (dirExists : String → Bool) (id tid timerId now : String)
    (pe : String → String → Option Int) (mdOk : Bool)
    (hInv : CompletedIffDone st) (hUniq : UniqueIds st) :
    CompletedIffDone (svcCreateTask st input dirExists id now mdOk).db ∧
    CompletedIffDone (svcUpdateTask st uinput now mdOk).1 ∧
    CompletedIffDone (svcMarkTaskDone st tid now mdOk).1 ∧
    CompletedIffDone (svcReopenTask st tid now mdOk).1 ∧
    CompletedIffDone (svcStartTask st tid timerId now pe mdOk).1 ∧
    CompletedIffDone (svcStopTask st tid now pe mdOk).1 ∧
    CompletedIffDone (svcDeleteTask st tid).1 :=
  ⟨ciod_svcCreateTask st input dirExists id now mdOk hInv,
   ciod_svcUpdateTask st uinput now mdOk hInv,
   ciod_svcMarkTaskDone st tid now mdOk hInv,
   ciod_svcReopenTask st tid now mdOk hInv,
   ciod_svcStartTask st tid timerId now pe mdOk hInv hUniq,
   ciod_svcStopTask st tid now pe mdOk hInv hUniq,
   ciod_svcDeleteTask st tid hInv⟩

/-- Counterexample to C2 as stated: a successful `reorder_tasks` that moves
a todo task (null `completed_at`) into status `done` leaves `completed_at`
null — the invariant is broken by the reorder operation, which the claim
includes among the state-changing operations. -/
theorem c2_completed_iff_done_counterexample :
    CompletedIffDone ⟨[sampleTask], []⟩ ∧
    (svcReorderTasks ⟨[sampleTask], []⟩ [⟨"t1", some .done, 7⟩] "now"
      true).2 = .ok () ∧
    ¬ CompletedIffDone
      (svcReorderTasks ⟨[sampleTask], []⟩ [⟨"t1", some .done, 7⟩] "now"
        true).1 :=
  ⟨by decide, rfl, by decide⟩

/-- Witness for the amended C2 over `mixedStore`. -/
theorem c2_completed_iff_done_witness :
    (CompletedIffDone mixedStore ∧ UniqueIds mixedStore) ∧
    (CompletedIffDone (svcCreateTask mixedStore
        { title := "N", status := .todo, due_date := some "2024-01-02" }
        (fun _ => false) "t9" "now" true).db ∧
     CompletedIffDone (svcUpdateTask mixedStore { id := "t1" } "now"
        true).1 ∧
     CompletedIffDone (svcMarkTaskDone mixedStore "t1" "now" true).1 ∧
     CompletedIffDone (svcReopenTask mixedStore "t1" "now" true).1 ∧
     CompletedIffDone (svcStartTask mixedStore "t1" "tm1" "now"
        (fun _ _ => some 0) true).1 ∧
     CompletedIffDone (svcStopTask mixedStore "t1" "now"
        (fun _ _ => some 0) true).1 ∧
     CompletedIffDone (svcDeleteTask mixedStore "t1").1) :=
  ⟨⟨by decide, by decide⟩,
   c2_completed_iff_done mixedStore
     { title := "N", status := .todo, due_date := some "2024-01-02" }
     { id := "t1" } (fun _ => false) "t9" "t1" "tm1" "now"
     (fun _ _ => some 0) true (by decide) (by decide)⟩

theorem rustRem_14_iff (a : Int) : rustRem a 14 = 0 ↔ (14 : Int) ∣ a :=
  ⟨Int.dvd_of_tmod_eq_zero, Int.tmod_eq_zero_of_dvd⟩

/-- C7 (amended): for a task with periodicity
`{strategy: "week", interval: 2, start_date: "2024-01-01"}` and no concrete
`scheduled_start` inside the queried day's window, expansion produces an
occurrence exactly when `today` is on or after the start date AND
`(today - start_date)` in days is divisible by 14; for days before the
start date no occurrence is produced even when the (negative) distance is
divisible by 14. -/
theorem c7_weekly_recurrence (t : Task) (s : String) (d : Date)
    (hper : t.periodicity = some weeklyP)
    (hss : ∀ v, t.scheduled_start = some v →
      ¬(s ++ "T00:00:00" ≤ v ∧ v ≤ s ++ "T23:59:59"))
    (hd : parseDate s = some d) :
    expandTask t s ≠ [] ↔
      (rataDie ⟨2024, 1, 1⟩ ≤ rataDie d ∧
        (14 : Int) ∣ (rataDie d - rataDie ⟨2024, 1, 1⟩)) := by
  have hw : (match t.scheduled_start with
      | some start =>
        decide (s ++ "T00:00:00" ≤ start ∧ start ≤ s ++ "T23:59:59")
      | none => false) = false := by
    cases hsv : t.scheduled_start with
    | none => rfl
    | some v => simpa using hss v hsv
  unfold expandTask
  dsimp only
  rw [hw]
  simp only [Bool.false_eq_true, if_false]
  rw [hper]
  dsimp only
  rw [hd]
  dsimp only
  have hchain : parseStartDateChain weeklyP.start_date
      = some (⟨2024, 1, 1⟩, "00:00:00") := rfl
  rw [hchain]
  dsimp only
  by_cases hlt : rataDie d < rataDie ⟨2024, 1, 1⟩
  · rw [if_pos hlt]
    constructor
    · intro h
      exact absurd rfl h
    · rintro ⟨h1, -⟩
      omega
  · rw [if_neg hlt]
    have hpe : (if weeklyP.end_rule = "date" then
        (match weeklyP.end_date with
          | some eds =>
            match parseDate eds with
            | some endDate => decide (rataDie endDate < rataDie d)
            | none => false
          | none => false)
        else false) = false := by
      rw [if_neg (by decide : ¬(weeklyP.end_rule = "date"))]
    rw [hpe]
    simp only [Bool.false_eq_true, if_false]
    have hrec : isRecurrence weeklyP.strategy d ⟨2024, 1, 1⟩
        (max weeklyP.interval 1)
        = decide (rustRem (rataDie d - rataDie ⟨2024, 1, 1⟩) 14 = 0) := by
      unfold isRecurrence
      rw [if_neg (by decide : ¬(weeklyP.strategy = "day")),
        if_pos (by decide : weeklyP.strategy = "week")]
      rw [show (7 : Int) * max weeklyP.interval 1 = 14 from by decide]
    rw [hrec]
    by_cases hrem : rustRem (rataDie d - rataDie ⟨2024, 1, 1⟩) 14 = 0
    · constructor
      · intro _
        exact ⟨by omega, (rustRem_14_iff _).mp hrem⟩
      · intro _
        simp [hrem]
    · constructor
      · intro h
        exact absurd (by simp [hrem]) h
      · rintro ⟨-, hdvd⟩
        exact absurd ((rustRem_14_iff _).mpr hdvd) hrem

/-- Counterexample to C7 as stated: 2023-12-18 lies 14 days BEFORE the start
date, so `(today - start_date)` is divisible by 14, yet expansion produces
no occurrence (the expander rejects days before the start date). -/
theorem c7_weekly_recurrence_counterexample :
    expandTask weeklyTask "2023-12-18" = [] ∧
    parseDate "2023-12-18" = some ⟨2023, 12, 18⟩ ∧
    parseDate "2024-01-01" = some ⟨2024, 1, 1⟩ ∧
    (14 : Int) ∣ (rataDie ⟨2023, 12, 18⟩ - rataDie ⟨2024, 1, 1⟩) :=
  ⟨rfl, rfl, rfl, ⟨-1, by decide⟩⟩

/-- Witness for the amended C7: the four dates named by the claim behave as
stated, and the iff instantiates at 2024-01-15. -/
theorem c7_weekly_recurrence_witness :
    expandTask weeklyTask "2024-01-15" ≠ [] ∧
    expandTask weeklyTask "2024-01-29" ≠ [] ∧
    expandTask weeklyTask "2024-01-08" = [] ∧
    expandTask weeklyTask "2024-01-22" = [] ∧
    (expandTask weeklyTask "2024-01-15" ≠ [] ↔
      (rataDie ⟨2024, 1, 1⟩ ≤ rataDie ⟨2024, 1, 15⟩ ∧
        (14 : Int) ∣ (rataDie ⟨2024, 1, 15⟩ - rataDie ⟨2024, 1, 1⟩))) :=
  ⟨by decide, by decide, by decide, by decide,
   c7_weekly_recurrence weeklyTask "2024-01-15" ⟨2024, 1, 15⟩ rfl
     (by intro v hv; cases hv) rfl⟩



/- ### Infrastructure for the front-matter round-trip (C6) -/

theorem string_data_append (a b : String) : (a ++ b).data = a.data ++ b.data :=
  rfl

theorem joinNl_data (ls : List String) :
    (joinNl ls).data = joinChar (ls.map String.data) := by
  induction ls with
  | nil => rfl
  | cons s ls ih =>
    show (s ++ "\n" ++ joinNl ls).data = _
    rw [string_data_append, string_data_append, ih]
    simp [joinChar]

theorem find?_map_replace_self (m : FM) (k v : String)
    (h : (List.any m (fun p => p.1 = k)) = true) :
    List.find? (fun p => p.1 = k)
        (List.map (fun p => if p.1 = k then (k, v) else p) m) = some (k, v) := by
  induction m with
  | nil => simp at h
  | cons p m ih =>
    by_cases hp : p.1 = k
    · simp [hp]
    · have h' : (List.any m (fun p => p.1 = k)) = true := by
        simp only [List.any_cons, Bool.or_eq_true] at h
        rcases h with h | h
        · exact absurd (by simpa using h) hp
        · exact h
      simp only [List.map_cons, if_neg hp]
      rw [List.find?_cons_of_neg _ (by simpa using hp)]
      exact ih h'

theorem find?_map_replace_ne (m : FM) (k v f : String) (h : f ≠ k) :
    List.find? (fun p => p.1 = f)
        (List.map (fun p => if p.1 = k then (k, v) else p) m)
      = List.find? (fun p => p.1 = f) m := by
  induction m with
  | nil => rfl
  | cons p m ih =>
    by_cases hp : p.1 = k
    · simp only [List.map_cons, if_pos hp]
      rw [List.find?_cons_of_neg _ (by simp; exact fun e => h e.symm),
        List.find?_cons_of_neg _ (by simp [hp]; exact fun e => absurd e.symm h)]
      exact ih
    · simp only [List.map_cons, if_neg hp]
      by_cases hf : p.1 = f
      · rw [List.find?_cons_of_pos _ (by simpa using hf),
          List.find?_cons_of_pos _ (by simpa using hf)]
      · rw [List.find?_cons_of_neg _ (by simpa using hf),
          List.find?_cons_of_neg _ (by simpa using hf)]
        exact ih

theorem fmGet_fmInsert_self (m : FM) (k v : String) :
    fmGet (fmInsert m k v) k = some v := by
  unfold fmInsert fmGet
  by_cases h : (List.any m (fun p => p.1 = k)) = true
  · rw [if_pos (by simpa using h), find?_map_replace_self m k v h]
    rfl
  · rw [if_neg (by simpa using h)]
    have hnone : List.find? (fun p => p.1 = k) m = none := by
      rw [List.find?_eq_none]
      intro p hp
      simp only [Bool.not_eq_true, decide_eq_false_iff_not]
      intro hk
      exact h (List.any_eq_true.mpr ⟨p, hp, by simpa using hk⟩)
    rw [List.find?_append, hnone]
    simp

theorem fmGet_fmInsert_ne (m : FM) (k v f : String) (h : f ≠ k) :
    fmGet (fmInsert m k v) f = fmGet m f := by
  unfold fmInsert fmGet
  by_cases hany : (List.any m (fun p => p.1 = k)) = true
  · rw [if_pos (by simpa using hany), find?_map_replace_ne m k v f h]
  · rw [if_neg (by simpa using hany), List.find?_append]
    have : List.find? (fun p => p.1 = f) [(k, v)] = none := by
      rw [List.find?_cons_of_neg _ (by simp; exact fun e => h e.symm)]
      rfl
    rw [this]
    cases List.find? (fun p => p.1 = f) m <;> rfl

theorem trimStartL_head (l : List Char) (h : trimStartL l = l) :
    ∀ c rest, l = c :: rest → isRustWs c = false := by
  intro c rest hl
  subst hl
  by_contra hw
  rw [Bool.not_eq_false] at hw
  unfold trimStartL at h
  rw [List.dropWhile_cons, if_pos hw] at h
  have hle := (List.dropWhile_suffix (l := rest) isRustWs).sublist.length_le
  rw [h] at hle
  simp at hle

theorem trimL_fix (l : List Char) (h : trimL l = l) :
    trimStartL l = l ∧ trimEndL l = l := by
  have h1 : (trimStartL l).length ≤ l.length :=
    (List.dropWhile_suffix isRustWs).sublist.length_le
  have h2 : (trimEndL (trimStartL l)).length ≤ (trimStartL l).length := by
    unfold trimEndL
    rw [List.length_reverse]
    calc ((trimStartL l).reverse.dropWhile isRustWs).length
        ≤ (trimStartL l).reverse.length :=
          (List.dropWhile_suffix isRustWs).sublist.length_le
      _ = (trimStartL l).length := List.length_reverse _
  have hlen : l.length ≤ (trimStartL l).length := by
    conv_lhs => rw [← h]
    exact h2
  have hsuf : trimStartL l <:+ l := List.dropWhile_suffix _
  have hfix : trimStartL l = l :=
    hsuf.sublist.eq_of_length (le_antisymm h1 hlen)
  refine ⟨hfix, ?_⟩
  have := h
  unfold trimL at this
  rw [hfix] at this
  exact this

theorem trimEndL_last (l : List Char) (h : trimEndL l = l) :
    ∀ c, l.getLast? = some c → isRustWs c = false := by
  intro c hc
  have hrev : trimStartL l.reverse = l.reverse := by
    unfold trimEndL at h
    have := congrArg List.reverse h
    rw [List.reverse_reverse] at this
    exact this
  have hhead : l.reverse.head? = some c := by
    rw [List.head?_reverse]
    exact hc
  rcases hrv : l.reverse with _ | ⟨d, t⟩
  · rw [hrv] at hhead
    cases hhead
  · rw [hrv] at hhead hrev
    have hd : d = c := by simpa using hhead
    subst hd
    exact trimStartL_head _ hrev _ _ rfl

theorem trimStartL_cons_of_not_ws (c : Char) (l : List Char)
    (h : isRustWs c = false) : trimStartL (c :: l) = c :: l := by
  unfold trimStartL
  rw [List.dropWhile_cons, if_neg (by simp [h])]

theorem trimEndL_append_of_last (x v : List Char) (hv : v ≠ [])
    (h : ∀ c, v.getLast? = some c → isRustWs c = false) :
    trimEndL (x ++ v) = x ++ v := by
  unfold trimEndL
  rw [List.reverse_append]
  rcases hrv : v.reverse with _ | ⟨c, t⟩
  · exact absurd (by simpa using congrArg List.reverse hrv) hv
  · have hc : isRustWs c = false := by
      apply h
      rw [← List.head?_reverse, hrv]
      rfl
    rw [List.cons_append, List.dropWhile_cons, if_neg (by simp [hc]),
      ← List.cons_append, ← hrv, List.reverse_append, List.reverse_reverse,
      List.reverse_reverse]

theorem hasTriple_cons (c : Char) (l : List Char) :
    hasTriple (c :: l) = ((decide (c = '-') && isDash2 l) || hasTriple l) :=
  rfl

theorem hasTriple_of_not_mem (l : List Char) (h : '-' ∉ l) :
    hasTriple l = false := by
  induction l with
  | nil => rfl
  | cons c t ih =>
    have hc : c ≠ '-' := fun e => h (e ▸ List.mem_cons_self c t)
    rw [hasTriple_cons, ih (fun hm => h (List.mem_cons_of_mem _ hm))]
    simp [hc]

theorem hasTriple_append_sep (a b : List Char) (c : Char) (hc : c ≠ '-')
    (ha : hasTriple a = false) (hb : hasTriple b = false) :
    hasTriple (a ++ c :: b) = false := by
  induction a with
  | nil =>
    rw [List.nil_append, hasTriple_cons, hb]
    simp [hc]
  | cons d a' ih =>
    rw [hasTriple_cons] at ha
    obtain ⟨hd2, ha'⟩ := Bool.or_eq_false_iff.mp ha
    rw [List.cons_append, hasTriple_cons, ih ha', Bool.or_false]
    by_cases hd : d = '-'
    · have hia : isDash2 a' = false := by simpa [hd] using hd2
      rcases a' with _ | ⟨e, _ | ⟨f, t⟩⟩
      · rcases b with _ | ⟨g, b'⟩ <;> simp [isDash2, hc]
      · simp [isDash2, hc]
      · rw [show ((e :: f :: t) ++ c :: b) = e :: f :: (t ++ c :: b) from rfl]
        rw [show isDash2 (e :: f :: (t ++ c :: b)) = isDash2 (e :: f :: t) from rfl]
        simp [hia]
    · simp [hd]

theorem hasTriple_append_two (a : List Char) (ha : hasTriple a = false)
    (hl : ∀ c, a.getLast? = some c → c ≠ '-') :
    hasTriple (a ++ ['-', '-']) = false := by
  induction a with
  | nil => decide
  | cons d a' ih =>
    rw [hasTriple_cons] at ha
    obtain ⟨hd2, ha'⟩ := Bool.or_eq_false_iff.mp ha
    have hrec : hasTriple (a' ++ ['-', '-']) = false := by
      apply ih ha'
      intro c hc
      rcases a' with _ | ⟨e, t⟩
      · cases hc
      · exact hl c (by rw [List.getLast?_cons_cons]; exact hc)
    rw [List.cons_append, hasTriple_cons, hrec, Bool.or_false]
    by_cases hd : d = '-'
    · have hia : isDash2 a' = false := by simpa [hd] using hd2
      rcases a' with _ | ⟨e, _ | ⟨f, t⟩⟩
      · exact absurd rfl (hd ▸ hl d rfl)
      · have he : e ≠ '-' := hl e rfl
        simp [isDash2, he]
      · rw [show ((e :: f :: t) ++ ['-', '-']) = e :: f :: (t ++ ['-', '-']) from rfl]
        rw [show isDash2 (e :: f :: (t ++ ['-', '-'])) = isDash2 (e :: f :: t) from rfl]
        simp [hia]
    · simp [hd]

theorem dash3_data : "---".data = ['-', '-', '-'] := rfl

theorem findSub_closing (I post : List Char)
    (h : hasTriple (I ++ ['-', '-']) = false) :
    findSub (I ++ '-' :: '-' :: '-' :: post) "---".data = some I.length := by
  induction I with
  | nil =>
    rw [List.nil_append]
    unfold findSub
    dsimp only
    rw [if_pos (by simp [List.isPrefixOf])]
    rfl
  | cons c I' ih =>
    rw [List.cons_append] at h ⊢
    rw [hasTriple_cons] at h
    obtain ⟨h1, h2⟩ := Bool.or_eq_false_iff.mp h
    unfold findSub
    dsimp only
    rw [if_neg ?hnp, ih h2]
    · rfl
    case hnp =>
      rcases I' with _ | ⟨e, _ | ⟨f, t⟩⟩
      · simp only [List.nil_append] at h1 ⊢
        simp [List.isPrefixOf]
        intro hc
        subst hc
        simp [isDash2] at h1
      · simp only [List.singleton_append, List.cons_append] at h1 ⊢
        simp [List.isPrefixOf]
        rintro hc he
        subst hc
        subst he
        simp [isDash2] at h1
      · simp only [List.cons_append] at h1 ⊢
        simp [List.isPrefixOf]
        rintro hc he hf
        subst hc
        subst he
        subst hf
        simp [isDash2] at h1

theorem splitOnNl_append_nl (l rest : List Char) (h : '\n' ∉ l) :
    splitOnNl (l ++ '\n' :: rest) = l :: splitOnNl rest := by
  induction l with
  | nil =>
    rw [List.nil_append]
    conv_lhs => rw [splitOnNl]
    rw [if_pos rfl]
  | cons c l' ih =>
    have hc : c ≠ '\n' := fun e => h (e ▸ List.mem_cons_self c l')
    rw [List.cons_append]
    show (if c = '\n' then [] :: splitOnNl (l' ++ '\n' :: rest)
        else
          match splitOnNl (l' ++ '\n' :: rest) with
          | [] => [[c]]
          | p :: ps => (c :: p) :: ps) = _
    rw [if_neg hc, ih (fun hm => h (List.mem_cons_of_mem _ hm))]

theorem splitOnNl_joinChar (ls : List (List Char))
    (h : ∀ l ∈ ls, '\n' ∉ l) :
    splitOnNl (joinChar ls) = ls ++ [[]] := by
  induction ls with
  | nil => rfl
  | cons l ls ih =>
    show splitOnNl ((l ++ ['\n']) ++ joinChar ls) = _
    rw [List.append_assoc, List.singleton_append,
      splitOnNl_append_nl _ _ (h l (List.mem_cons_self l ls)),
      ih (fun x hx => h x (List.mem_cons_of_mem _ hx))]
    rfl

theorem joinChar_ne_nil (l : List Char) (ls : List (List Char)) :
    joinChar (l :: ls) ≠ [] := by
  show (l ++ ['\n']) ++ joinChar ls ≠ []
  simp

theorem getLast?_joinChar (ls : List (List Char)) (h : ls ≠ []) :
    (joinChar ls).getLast? = some '\n' := by
  induction ls with
  | nil => exact absurd rfl h
  | cons l ls ih =>
    rcases ls with _ | ⟨r, rs⟩
    · show ((l ++ ['\n']) ++ joinChar []).getLast? = some '\n'
      show ((l ++ ['\n']) ++ []).getLast? = some '\n'
      rw [List.append_nil]
      exact List.getLast?_concat _
    · show ((l ++ ['\n']) ++ joinChar (r :: rs)).getLast? = some '\n'
      rw [List.getLast?_append_of_ne_nil _ (joinChar_ne_nil r rs)]
      exact ih (by simp)

theorem hasTriple_joinChar (ls : List (List Char))
    (h : ∀ l ∈ ls, hasTriple l = false) :
    hasTriple (joinChar ls) = false := by
  induction ls with
  | nil => rfl
  | cons l ls ih =>
    show hasTriple ((l ++ ['\n']) ++ joinChar ls) = false
    rw [List.append_assoc, List.singleton_append]
    exact hasTriple_append_sep _ _ '\n' (by decide)
      (h l (List.mem_cons_self l ls))
      (ih (fun x hx => h x (List.mem_cons_of_mem _ hx)))

theorem findIdx?_colon (k rest : List Char) (hk : ':' ∉ k) (i : Nat) :
    List.findIdx? (fun c => c = ':') (k ++ ':' :: rest) i = some (i + k.length) := by
  induction k generalizing i with
  | nil =>
    rw [List.nil_append, List.findIdx?_cons, if_pos (by simp)]
    simp
  | cons c k' ih =>
    have hc : c ≠ ':' := fun e => hk (e ▸ List.mem_cons_self c k')
    rw [List.cons_append, List.findIdx?_cons, if_neg (by simp [hc]),
      ih (fun hm => hk (List.mem_cons_of_mem _ hm))]
    simp only [List.length_cons]
    congr 1
    omega

theorem splitOnceColon_mid (k rest : List Char) (hk : ':' ∉ k) :
    splitOnceColon (k ++ ':' :: rest) = some (k, rest) := by
  unfold splitOnceColon
  rw [show List.findIdx? (· = ':') (k ++ ':' :: rest) = some (0 + k.length) from
    findIdx?_colon k rest hk 0]
  dsimp only
  rw [Nat.zero_add]
  congr 1
  rw [List.take_left]
  rw [show k.length + 1 = k.length + 1 from rfl, List.drop_append 1]
  rfl

theorem isPrefixOf_append_self (a b : List Char) :
    List.isPrefixOf a (a ++ b) = true := by
  induction a with
  | nil => simp [List.isPrefixOf]
  | cons c a' ih => simp [List.isPrefixOf, ih]

theorem trimL_fix_of_parts (l : List Char) (h1 : trimStartL l = l)
    (h2 : trimEndL l = l) : trimL l = l := by
  unfold trimL
  rw [h1, h2]

theorem trimStartL_key (k : List Char) (hk : ∀ c ∈ k, isRustWs c = false)
    (x : List Char) : trimStartL (k ++ x) = k ++ x ∨ k = [] := by
  rcases k with _ | ⟨c, k'⟩
  · exact Or.inr rfl
  · exact Or.inl (trimStartL_cons_of_not_ws c (k' ++ x)
      (hk c (List.mem_cons_self c k')))

theorem trimL_line_ne (k v : List Char)
    (hk1 : ∀ c ∈ k, isRustWs c = false) (hk3 : k ≠ [])
    (hv2 : trimEndL v = v) (hvne : v ≠ []) :
    trimL (k ++ ':' :: ' ' :: v) = k ++ ':' :: ' ' :: v := by
  unfold trimL
  have hstart : trimStartL (k ++ ':' :: ' ' :: v) = k ++ ':' :: ' ' :: v := by
    rcases k with _ | ⟨c, k'⟩
    · exact absurd rfl hk3
    · exact trimStartL_cons_of_not_ws c _ (hk1 c (List.mem_cons_self c k'))
  rw [hstart, show k ++ ':' :: ' ' :: v = (k ++ [':', ' ']) ++ v from by simp,
    trimEndL_append_of_last _ v hvne (trimEndL_last v hv2)]

theorem trimL_line_empty (k : List Char)
    (hk1 : ∀ c ∈ k, isRustWs c = false) (hk3 : k ≠ []) :
    trimL (k ++ [':', ' ']) = k ++ [':'] := by
  unfold trimL
  have hstart : trimStartL (k ++ [':', ' ']) = k ++ [':', ' '] := by
    rcases k with _ | ⟨c, k'⟩
    · exact absurd rfl hk3
    · exact trimStartL_cons_of_not_ws c _ (hk1 c (List.mem_cons_self c k'))
  rw [hstart]
  unfold trimEndL
  rw [show ((k ++ [':', ' ']).reverse) = ' ' :: ':' :: k.reverse from by simp,
    List.dropWhile_cons, if_pos (by decide), List.dropWhile_cons,
    if_neg (by decide)]
  simp

theorem trimL_key (k : List Char)
    (hk2 : ∀ c ∈ k, isRustWs c = false) (hk3 : k ≠ []) :
    trimL k = k := by
  apply trimL_fix_of_parts
  · rcases k with _ | ⟨c, k'⟩
    · exact absurd rfl hk3
    · exact trimStartL_cons_of_not_ws c _ (hk2 c (List.mem_cons_self c k'))
  · have := trimEndL_append_of_last [] k hk3
      (fun c hc => hk2 c (List.mem_of_mem_getLast? hc))
    simpa using this

theorem parseFMLine_keyval (m : FM) (k v : String)
    (hk1 : ':' ∉ k.data) (hk2 : ∀ c ∈ k.data, isRustWs c = false)
    (hk3 : k.data ≠ []) (hv : trimL v.data = v.data) :
    parseFMLine m (k.data ++ ':' :: ' ' :: v.data) = fmInsert m k v := by
  obtain ⟨hvs, hve⟩ := trimL_fix v.data hv
  have hktrim : trimL k.data = k.data := trimL_key k.data hk2 hk3
  by_cases hvd : v.data = []
  · unfold parseFMLine
    dsimp only
    rw [hvd, trimL_line_empty k.data hk2 hk3, if_neg (by simp),
      splitOnceColon_mid k.data [] hk1]
    dsimp only
    rw [hktrim]
    obtain ⟨vd⟩ := v
    simp only at hvd
    subst hvd
    rfl
  · unfold parseFMLine
    dsimp only
    rw [trimL_line_ne k.data v.data hk2 hk3 hve hvd, if_neg (by simp),
      splitOnceColon_mid k.data (' ' :: v.data) hk1]
    dsimp only
    rw [hktrim]
    have hsp : trimL (' ' :: v.data) = v.data := by
      unfold trimL
      rw [show trimStartL (' ' :: v.data) = trimStartL v.data from by
          unfold trimStartL
          rw [List.dropWhile_cons, if_pos (by decide)],
        hvs, hve]
    rw [hsp]

theorem system_fields_facts :
    ∀ f ∈ SYSTEM_FIELDS, ':' ∉ f.data ∧ (∀ c ∈ f.data, isRustWs c = false) ∧
      f.data ≠ [] ∧ '-' ∉ f.data ∧ '\n' ∉ f.data := by decide

theorem system_fields_nodup : SYSTEM_FIELDS.Nodup := by decide

theorem fmInsert_fresh (m : FM) (k v : String) (h : ∀ p ∈ m, p.1 ≠ k) :
    fmInsert m k v = m ++ [(k, v)] := by
  unfold fmInsert
  rw [if_neg ?hno]
  case hno =>
    intro hany
    rw [List.any_eq_true] at hany
    obtain ⟨p, hp, he⟩ := hany
    exact h p hp (by simpa using he)

theorem foldl_fmInsert_fresh (fs : List String) (g : String → String) :
    ∀ (m : FM), (∀ f ∈ fs, ∀ p ∈ m, p.1 ≠ f) → fs.Nodup →
      fs.foldl (fun acc f => fmInsert acc f (g f)) m
        = m ++ fs.map (fun f => (f, g f)) := by
  induction fs with
  | nil =>
    intro m _ _
    simp
  | cons f fs ih =>
    intro m hfresh hnd
    rw [List.foldl_cons,
      fmInsert_fresh m f (g f) (fun p hp => hfresh f (List.mem_cons_self f fs) p hp),
      ih (m ++ [(f, g f)]) ?fresh (List.Nodup.of_cons hnd)]
    · simp
    case fresh =>
      intro f' hf' p hp
      rcases List.mem_append.mp hp with hp | hp
      · exact hfresh f' (List.mem_cons_of_mem _ hf') p hp
      · have hpf : p = (f, g f) := by simpa using hp
        subst hpf
        intro he
        simp only at he
        exact (List.nodup_cons.mp hnd).1 (he ▸ hf')

theorem fieldLine_data (f v : String) :
    (f ++ ": " ++ v).data = f.data ++ ':' :: ' ' :: v.data := by
  rw [string_data_append, string_data_append]
  show (f.data ++ [':', ' ']) ++ v.data = _
  simp

theorem foldl_parseFMLine_fields (m : FM)
    (hm : ∀ f ∈ SYSTEM_FIELDS, ∀ v, fmGet m f = some v → cleanValue v)
    (m₀ : FM) :
    ((fieldLinesOf m).map String.data).foldl parseFMLine m₀
      = (frontmatterKeysOf m).foldl
          (fun acc f => fmInsert acc f ((fmGet m f).getD "")) m₀ := by
  unfold fieldLinesOf
  rw [List.foldl_map, List.foldl_map]
  apply List.foldl_ext
  intro acc f hf
  have hfS : f ∈ SYSTEM_FIELDS ∧ f ≠ "fm_version" ∧ (fmGet m f).isSome := by
    have := List.mem_filter.mp hf
    simpa using this
  obtain ⟨v, hv⟩ := Option.isSome_iff_exists.mp hfS.2.2
  have hclean := hm f hfS.1 v hv
  obtain ⟨hf1, hf2, hf3, _, _⟩ := system_fields_facts f hfS.1
  rw [show (fmGet m f).getD "" = v from by rw [hv]; rfl, fieldLine_data f v]
  exact parseFMLine_keyval acc f v hf1 hf2 hf3 hclean.1

theorem fmLinesC_shape (m : FM)
    (hm : ∀ f ∈ SYSTEM_FIELDS, ∀ v, fmGet m f = some v → cleanValue v) :
    ∀ lc ∈ fmLinesC m, ∃ f v, lc = f.data ++ ':' :: ' ' :: v.data ∧
      f ∈ SYSTEM_FIELDS ∧ cleanValue v := by
  intro lc hlc
  unfold fmLinesC at hlc
  rw [List.map_cons, List.mem_cons] at hlc
  rcases hlc with hlc | hlc
  · refine ⟨"fm_version", "2", by rw [hlc]; rfl, by decide, ?_⟩
    exact ⟨by decide, by decide, by decide⟩
  · rw [List.mem_map] at hlc
    obtain ⟨s, hs, rfl⟩ := hlc
    unfold fieldLinesOf at hs
    rw [List.mem_map] at hs
    obtain ⟨f, hf, rfl⟩ := hs
    have hfS : f ∈ SYSTEM_FIELDS ∧ f ≠ "fm_version" ∧ (fmGet m f).isSome := by
      simpa using List.mem_filter.mp hf
    obtain ⟨v, hv⟩ := Option.isSome_iff_exists.mp hfS.2.2
    refine ⟨f, v, ?_, hfS.1, hm f hfS.1 v hv⟩
    rw [show (fmGet m f).getD "" = v from by rw [hv]; rfl]
    exact fieldLine_data f v

theorem fmLinesC_no_nl (m : FM)
    (hm : ∀ f ∈ SYSTEM_FIELDS, ∀ v, fmGet m f = some v → cleanValue v) :
    ∀ lc ∈ fmLinesC m, '\n' ∉ lc := by
  intro lc hlc hmem
  obtain ⟨f, v, rfl, hfS, hcl⟩ := fmLinesC_shape m hm lc hlc
  rcases List.mem_append.mp hmem with hin | hin
  · exact (system_fields_facts f hfS).2.2.2.2 hin
  · simp only [List.mem_cons] at hin
    rcases hin with h1 | h1 | hin
    · exact absurd h1 (by decide)
    · exact absurd h1 (by decide)
    · exact hcl.2.1 hin

theorem fmLinesC_noTriple (m : FM)
    (hm : ∀ f ∈ SYSTEM_FIELDS, ∀ v, fmGet m f = some v → cleanValue v) :
    ∀ lc ∈ fmLinesC m, hasTriple lc = false := by
  intro lc hlc
  obtain ⟨f, v, rfl, hfS, hcl⟩ := fmLinesC_shape m hm lc hlc
  apply hasTriple_append_sep _ _ ':' (by decide)
  · exact hasTriple_of_not_mem _ (system_fields_facts f hfS).2.2.2.1
  · rw [hasTriple_cons, hcl.2.2]
    simp

theorem fmLinesC_last (m : FM)
    (hm : ∀ f ∈ SYSTEM_FIELDS, ∀ v, fmGet m f = some v → cleanValue v) :
    ∀ lc ∈ fmLinesC m, lc.getLast? ≠ some '\r' := by
  intro lc hlc
  obtain ⟨f, v, rfl, hfS, hcl⟩ := fmLinesC_shape m hm lc hlc
  by_cases hvd : v.data = []
  · rw [hvd, show f.data ++ ':' :: ' ' :: ([] : List Char)
        = (f.data ++ [':']) ++ [' '] from by simp,
      List.getLast?_concat]
    simp
  · rw [show f.data ++ ':' :: ' ' :: v.data
        = (f.data ++ [':', ' ']) ++ v.data from by simp,
      List.getLast?_append_of_ne_nil _ hvd]
    intro he
    have hfix := trimL_fix v.data hcl.1
    have := trimEndL_last v.data hfix.2 '\r' he
    simp [isRustWs] at this

theorem fmInterior_safe (m : FM)
    (hm : ∀ f ∈ SYSTEM_FIELDS, ∀ v, fmGet m f = some v → cleanValue v) :
    hasTriple (fmInterior m ++ ['-', '-']) = false := by
  show hasTriple (('\n' :: joinChar (fmLinesC m)) ++ ['-', '-']) = false
  rw [List.cons_append, hasTriple_cons]
  have hJ : hasTriple (joinChar (fmLinesC m) ++ ['-', '-']) = false := by
    apply hasTriple_append_two
    · exact hasTriple_joinChar _ (fmLinesC_noTriple m hm)
    · intro c hc
      have hlast := getLast?_joinChar (fmLinesC m) (by unfold fmLinesC; simp)
      rw [hlast] at hc
      obtain rfl := Option.some.inj hc
      decide
  rw [hJ]
  simp

theorem generate_append_data (m : FM) (body : String) :
    (generateFrontmatter m ++ body).data
      = "---".data ++ (fmInterior m ++ '-' :: '-' :: '-' :: ('\n' :: body.data)) := by
  rw [string_data_append]
  unfold generateFrontmatter
  rw [string_data_append, string_data_append, joinNl_data]
  unfold fmInterior fmLinesC
  rw [show ("---\n".data : List Char) = ['-', '-', '-', '\n'] from rfl,
    show ("---".data : List Char) = ['-', '-', '-'] from rfl]
  simp [List.append_assoc]

theorem splitLinesL_interior (m : FM)
    (hm : ∀ f ∈ SYSTEM_FIELDS, ∀ v, fmGet m f = some v → cleanValue v) :
    splitLinesL (fmInterior m) = [] :: fmLinesC m := by
  have hsp : splitOnNl (fmInterior m) = [] :: (fmLinesC m ++ [[]]) := by
    unfold fmInterior
    conv_lhs => rw [splitOnNl]
    rw [if_pos rfl, splitOnNl_joinChar _ (fmLinesC_no_nl m hm)]
  have hjoin_ne : joinChar (fmLinesC m) ≠ [] := by
    unfold fmLinesC
    rw [List.map_cons]
    exact joinChar_ne_nil _ _
  have hlast : (fmInterior m).getLast? = some '\n' := by
    unfold fmInterior
    rw [show ('\n' :: joinChar (fmLinesC m)) = ['\n'] ++ joinChar (fmLinesC m)
        from rfl,
      List.getLast?_append_of_ne_nil _ hjoin_ne]
    apply getLast?_joinChar
    unfold fmLinesC
    simp
  unfold splitLinesL
  rw [if_neg (by unfold fmInterior; simp)]
  dsimp only
  rw [hsp, hlast, if_pos rfl,
    show ([] :: (fmLinesC m ++ [[]])) = (([] :: fmLinesC m) ++ [[]]) from by simp,
    List.dropLast_concat]
  have hid : ∀ p ∈ ([] :: fmLinesC m),
      (if p.getLast? = some '\r' then p.dropLast else p) = p := by
    intro p hp
    rcases List.mem_cons.mp hp with rfl | hp
    · rfl
    · rw [if_neg (fmLinesC_last m hm p hp)]
  rw [List.map_congr_left hid]
  simp

theorem foldl_interior (m : FM)
    (hm : ∀ f ∈ SYSTEM_FIELDS, ∀ v, fmGet m f = some v → cleanValue v) :
    (fmLinesC m).foldl parseFMLine [] = parsedBlockOf m := by
  unfold fmLinesC
  rw [List.map_cons, List.foldl_cons,
    show parseFMLine [] ("fm_version: 2".data) = [("fm_version", "2")] from rfl,
    foldl_parseFMLine_fields m hm [("fm_version", "2")],
    foldl_fmInsert_fresh (frontmatterKeysOf m) (fun f => (fmGet m f).getD "")
      [("fm_version", "2")] ?fresh ?nodup]
  · rfl
  case fresh =>
    intro f hf p hp
    have hpk : p = ("fm_version", "2") := by simpa using hp
    subst hpk
    intro he
    simp only at he
    have hfS := List.mem_filter.mp hf
    simp only [decide_eq_true_eq, Bool.and_eq_true, ne_eq, decide_not,
      Bool.not_eq_true', decide_eq_false_iff_not] at hfS
    exact hfS.2.1 he.symm
  case nodup =>
    exact system_fields_nodup.filter _

theorem parseFrontmatter_generate (m : FM) (body : String)
    (hb : trimStartL body.data = body.data)
    (hm : ∀ f ∈ SYSTEM_FIELDS, ∀ v, fmGet m f = some v → cleanValue v) :
    parseFrontmatter (generateFrontmatter m ++ body)
      = (some (parsedBlockOf m), body) := by
  have hdata := generate_append_data m body
  unfold parseFrontmatter
  dsimp only
  rw [hdata, if_neg (not_not_intro (isPrefixOf_append_self _ _)),
    show ("---".data ++ (fmInterior m ++ '-' :: '-' :: '-' :: ('\n' :: body.data))).drop 3
      = fmInterior m ++ '-' :: '-' :: '-' :: ('\n' :: body.data) from rfl,
    findSub_closing (fmInterior m) ('\n' :: body.data) (fmInterior_safe m hm)]
  dsimp only
  rw [List.take_left,
    show ("---".data ++ (fmInterior m ++ '-' :: '-' :: '-' :: ('\n' :: body.data))).drop
        ((fmInterior m).length + 6) = '\n' :: body.data from ?hdrop,
    show trimStartL ('\n' :: body.data) = trimStartL body.data from by
      unfold trimStartL
      rw [List.dropWhile_cons, if_pos (by decide)],
    hb, splitLinesL_interior m hm,
    show ([] :: fmLinesC m).foldl parseFMLine []
      = (fmLinesC m).foldl parseFMLine [] from rfl,
    foldl_interior m hm]
  case hdrop =>
    rw [dash3_data,
      show (['-', '-', '-'] : List Char)
          ++ (fmInterior m ++ '-' :: '-' :: '-' :: ('\n' :: body.data))
        = (['-', '-', '-'] ++ fmInterior m)
          ++ '-' :: '-' :: '-' :: ('\n' :: body.data) from by simp,
      show (fmInterior m).length + 6 = (['-', '-', '-'] ++ fmInterior m).length + 3
        from by
          simp only [List.length_append, List.length_cons, List.length_nil]
          omega,
      List.drop_append 3]
    rfl

theorem cleanValue_of_B (v : String) (h : cleanValueB v = true) : cleanValue v := by
  unfold cleanValueB at h
  simp only [Bool.and_eq_true, decide_eq_true_eq, Bool.not_eq_true'] at h
  exact ⟨h.1.1, h.1.2, h.2⟩

theorem trimStartL_idem (l : List Char) :
    trimStartL (trimStartL l) = trimStartL l := by
  induction l with
  | nil => rfl
  | cons c t ih =>
    unfold trimStartL at ih ⊢
    rw [List.dropWhile_cons]
    by_cases hc : isRustWs c = true
    · rw [if_pos hc]
      exact ih
    · rw [if_neg hc, List.dropWhile_cons, if_neg hc]

theorem parseFrontmatter_body_trimStart (c : String) (fm : FM) (body : String)
    (hp : parseFrontmatter c = (some fm, body)) :
    trimStartL body.data = body.data := by
  unfold parseFrontmatter at hp
  by_cases h1 : List.isPrefixOf "---".data c.data
  · rw [if_neg (not_not_intro h1)] at hp
    rcases hfind : findSub (c.data.drop 3) "---".data with _ | endIdx
    · rw [hfind] at hp
      cases hp
    · rw [hfind] at hp
      dsimp only at hp
      obtain ⟨-, hb2⟩ := Prod.mk.inj hp
      rw [← hb2]
      exact trimStartL_idem _
  · rw [if_pos h1] at hp
    cases hp

theorem updateFrontmatterContent_eq (c : String) (u : List (String × String))
    (fm : FM) (body : String) (hp : parseFrontmatter c = (some fm, body)) :
    updateFrontmatterContent c u
      = generateFrontmatter (fmInsert (mergedOf fm u) "fm_version" "2") ++ body := by
  unfold updateFrontmatterContent
  rw [hp]
  rfl

theorem mergedOf_clean (fm : FM) (u : List (String × String))
    (hfm : ∀ f ∈ SYSTEM_FIELDS, ∀ v, fmGet fm f = some v → cleanValue v)
    (hu : ∀ kv ∈ u, kv.1 ∈ SYSTEM_FIELDS → cleanValue kv.2) :
    ∀ f ∈ SYSTEM_FIELDS, ∀ v, fmGet (mergedOf fm u) f = some v → cleanValue v := by
  induction u generalizing fm with
  | nil => exact hfm
  | cons kv u' ih =>
    show ∀ f ∈ SYSTEM_FIELDS, ∀ v,
      fmGet (mergedOf
        (if SYSTEM_FIELDS.contains kv.1 then fmInsert fm kv.1 kv.2 else fm) u') f
        = some v → cleanValue v
    apply ih
    · intro f hf v hv
      by_cases hc : SYSTEM_FIELDS.contains kv.1 = true
      · rw [if_pos hc] at hv
        by_cases hfk : f = kv.1
        · subst hfk
          rw [fmGet_fmInsert_self] at hv
          obtain rfl := Option.some.inj hv
          exact hu kv (List.mem_cons_self kv u') (by simpa using hc)
        · rw [fmGet_fmInsert_ne fm _ _ f hfk] at hv
          exact hfm f hf v hv
      · rw [if_neg hc] at hv
        exact hfm f hf v hv
    · intro kv' hkv' hmem
      exact hu kv' (List.mem_cons_of_mem _ hkv') hmem

theorem parsedBlockOf_insert_version (m : FM) :
    parsedBlockOf (fmInsert m "fm_version" "2") = parsedBlockOf m := by
  unfold parsedBlockOf frontmatterKeysOf
  have hfilter : SYSTEM_FIELDS.filter
        (fun f => f ≠ "fm_version" ∧ (fmGet (fmInsert m "fm_version" "2") f).isSome)
      = SYSTEM_FIELDS.filter
        (fun f => f ≠ "fm_version" ∧ (fmGet m f).isSome) := by
    apply List.filter_congr
    intro f hf
    by_cases hv : f = "fm_version"
    · simp [hv]
    · rw [fmGet_fmInsert_ne m _ _ f hv]
  rw [hfilter]
  apply congrArg
  apply List.map_congr_left
  intro f hf
  have hfne : f ≠ "fm_version" := by
    have := List.mem_filter.mp hf
    simp only [decide_eq_true_eq, Bool.and_eq_true, ne_eq, decide_not,
      Bool.not_eq_true', decide_eq_false_iff_not] at this
    exact this.2.1
  rw [fmGet_fmInsert_ne m _ _ f hfne]

/-- **C6** counterexample to raw-body byte-identity: a file whose body is
separated from the closing `---` by a blank line parses fine, but
`update_task_frontmatter` re-serializes only the parsed body, which
`parse_frontmatter` has `trim_start`ed — the blank line after the closing
delimiter is lost, so the bytes after the delimiter differ before and after
the call even with an empty update map. -/
theorem c6_frontmatter_roundtrip_counterexample :
    parseFrontmatter "---\nid: x\n---\n\nBody" = (some [("id", "x")], "Body") ∧
    rawBodyAfter "---\nid: x\n---\n\nBody" = some "\n\nBody" ∧
    rawBodyAfter (updateFrontmatterContent "---\nid: x\n---\n\nBody" [])
      = some "\nBody" ∧
    ("\n\nBody" : String) ≠ "\nBody" :=
  ⟨by decide, by decide, by decide, by decide⟩

/-- **C6** (amended): round-trip of `update_task_frontmatter` under the
parser's own reading.  For every file whose content parses as a front-matter
block `fm` with body `body`, and every update map `u`, provided the
whitelisted values in play are clean — trimmed, single-line and free of the
`---` delimiter, which every value the parser itself produces for a
well-formed file satisfies — re-parsing the rewritten content yields exactly
the merged whitelisted keys (`fm_version: 2` followed by the `SYSTEM_FIELDS`
keys present in the merge of `u` into `fm`, in whitelist order, with the
merged values) and a body byte-identical to the parsed body `body`.  The raw
bytes after the closing delimiter are not preserved in general, because the
parser trims leading whitespace off the body before it is rewritten (see the
counterexample). -/
theorem c6_frontmatter_roundtrip (c : String) (u : List (String × String))
    (fm : FM) (body : String)
    (hp : parseFrontmatter c = (some fm, body))
    (hfm : ∀ f ∈ SYSTEM_FIELDS, (fmGet fm f).all cleanValueB = true)
    (hu : ∀ kv ∈ u, kv.1 ∈ SYSTEM_FIELDS → cleanValueB kv.2 = true) :
    parseFrontmatter (updateFrontmatterContent c u)
      = (some (parsedBlockOf (mergedOf fm u)), body) := by
  have hfm' : ∀ f ∈ SYSTEM_FIELDS, ∀ v, fmGet fm f = some v → cleanValue v := by
    intro f hf v hv
    have hall := hfm f hf
    rw [hv] at hall
    exact cleanValue_of_B v (by simpa [Option.all] using hall)
  have hu' : ∀ kv ∈ u, kv.1 ∈ SYSTEM_FIELDS → cleanValue kv.2 :=
    fun kv hkv hmem => cleanValue_of_B _ (hu kv hkv hmem)
  rw [updateFrontmatterContent_eq c u fm body hp,
    parseFrontmatter_generate _ body
      (parseFrontmatter_body_trimStart c fm body hp) ?hclean,
    parsedBlockOf_insert_version]
  case hclean =>
    intro f hf v hv
    by_cases hfv : f = "fm_version"
    · subst hfv
      rw [fmGet_fmInsert_self] at hv
      obtain rfl := Option.some.inj hv
      exact ⟨by decide, by decide, by decide⟩
    · rw [fmGet_fmInsert_ne _ _ _ f hfv] at hv
      exact mergedOf_clean fm u hfm' hu' f hf v hv

/-- Witness for the amended C6 at a concrete file and update map: the merge
writes `status: doing`, drops the non-whitelisted key, keeps `title` and
`due_date`, and the parsed body `Notes here` round-trips byte-identically. -/
theorem c6_frontmatter_roundtrip_witness :
    parseFrontmatter "---\ntitle: Buy milk\ndue_date: 2024-01-01\n---\nNotes here"
        = (some [("title", "Buy milk"), ("due_date", "2024-01-01")], "Notes here") ∧
    parseFrontmatter (updateFrontmatterContent
        "---\ntitle: Buy milk\ndue_date: 2024-01-01\n---\nNotes here"
        [("status", "doing"), ("junk", "zap")])
      = (some [("fm_version", "2"), ("title", "Buy milk"), ("status", "doing"),
          ("due_date", "2024-01-01")], "Notes here") :=
  ⟨by decide,
   by
     have h := c6_frontmatter_roundtrip
       "---\ntitle: Buy milk\ndue_date: 2024-01-01\n---\nNotes here"
       [("status", "doing"), ("junk", "zap")]
       [("title", "Buy milk"), ("due_date", "2024-01-01")] "Notes here"
       (by decide) (by decide) (by decide)
     rw [h]
     decide⟩

set_option maxRecDepth 40000 in
/-- **C8**: creating "Buy milk" (status todo, due 2024-01-01) into an empty
store generates the slug `Buy_milk`, returns a row with `order_index = 0`
and `task_dir_slug = Buy_milk`, and writes exactly one Markdown mirror file
at the vault-relative path `.planning/tasks/Buy_milk.md` whose front-matter
carries `status: todo` (both as the parsed `status` key and as the literal
line). -/
theorem c8_create_buy_milk :
    generateSlug "Buy milk" = "Buy_milk" ∧
    buyMilkCreate.out.toOption.map Task.task_dir_slug = some (some "Buy_milk") ∧
    buyMilkCreate.out.toOption.map Task.order_index = some 0 ∧
    buyMilkCreate.files.map Prod.fst = [".planning/tasks/Buy_milk.md"] ∧
    buyMilkCreate.files.map
        (fun f => fmGet ((parseFrontmatter f.2).1.getD []) "status")
      = [some "todo"] ∧
    ∀ f ∈ buyMilkCreate.files, "status: todo".data ∈ splitLinesL f.2.data :=
  ⟨by decide, by decide, by decide, by decide, by decide, by decide⟩

end Planning
